import Mathlib

/-!
# Verification of the `validator` package

A shallow embedding of the Go package `validator` (files `validator.go`,
`validation_rule.go`, `validate_len.go`, `validate_min.go`, `validate_max.go`,
`validate_in.go`) together with theorems about its rule parser, its four rule
evaluators and its structural walker.

Modelling conventions.

* A Go `string` is a Lean `String` (well-formed UTF-8 text); `len([]rune(s))` is
  `String.length`, the number of code points.
* A Go `int` is a Lean `Int`; the package never does arithmetic on it, only
  comparisons, and `strconv.Atoi` rejects literals outside the 64-bit range.
* A reflected value is a `Value`; a reflected struct field is a `StructField`.
  A value of kind `Int` or `String` whose type has a `Format`, `Error` or
  `String` method of its own carries the text `fmt` prints for it under `%v`;
  a struct or a slice is printed as plain data.
* A run-time panic (index out of range) is the result `none`; nothing in the
  package recovers from it, so it ends every call that is under way.
* Ranging over a Go map visits the keys in an order the language leaves
  unspecified; every function that ranges over a map takes the enumeration
  `range` used for it as an explicit argument.
-/

namespace Validator

/-! ## Library functions called by the package -/

/-- Go `strings.Split(s, sep)` for a separator `sep` of one character. -/
def strings.Split (s : String) (sep : Char) : List String :=
  (s.data.splitOn sep).map String.mk

/-- Go `unicode.IsSpace`: the code points with the Unicode White_Space property. -/
def unicode.IsSpace (c : Char) : Bool :=
  let n := c.toNat
  n = 0x09 || n = 0x0A || n = 0x0B || n = 0x0C || n = 0x0D || n = 0x20 ||
  n = 0x85 || n = 0xA0 || n = 0x1680 || (0x2000 ≤ n && n ≤ 0x200A) ||
  n = 0x2028 || n = 0x2029 || n = 0x202F || n = 0x205F || n = 0x3000

/-- Go `strings.TrimSpace`: drop the leading and the trailing white space. -/
def strings.TrimSpace (s : String) : String :=
  String.mk (((s.data.dropWhile unicode.IsSpace).reverse.dropWhile unicode.IsSpace).reverse)

/-- Go `strings.Join`. -/
def strings.Join (elems : List String) (sep : String) : String :=
  sep.intercalate elems

/-- The value of a non-empty run of decimal digits, most significant first. -/
def strconv.digitsValue (ds : List Char) : Nat :=
  ds.foldl (fun acc c => 10 * acc + (c.toNat - 48)) 0

/-- Go `strconv.Atoi` on a 64-bit platform: an optional sign, then one or more
decimal digits, denoting a value of the range of `int`; `none` is the error
result (`ErrSyntax` or `ErrRange`). -/
def strconv.Atoi (s : String) : Option Int :=
  let signed : Bool × List Char :=
    match s.data with
    | '-' :: r => (true, r)
    | '+' :: r => (false, r)
    | r => (false, r)
  let ds := signed.2
  if ds.isEmpty || !ds.all Char.isDigit then none
  else
    let n : Int := (strconv.digitsValue ds : Nat)
    let v : Int := if signed.1 then -n else n
    if -(2 : Int) ^ 63 ≤ v ∧ v < (2 : Int) ^ 63 then some v else none

/-! ## Reflected values -/

/-- The `reflect.Kind`s other than `Int`, `String`, `Struct` and `Slice`. -/
inductive OtherKind where
  | Invalid | Bool | Int8 | Int16 | Int32 | Int64
  | Uint | Uint8 | Uint16 | Uint32 | Uint64 | Uintptr
  | Float32 | Float64 | Complex64 | Complex128
  | Array | Chan | Func | Interface | Map | Pointer | UnsafePointer
  deriving DecidableEq, Repr

/-- Go `Kind.String()` on the kinds of `OtherKind`. -/
def OtherKind.String : OtherKind → String
  | .Invalid => "invalid" | .Bool => "bool"
  | .Int8 => "int8" | .Int16 => "int16" | .Int32 => "int32" | .Int64 => "int64"
  | .Uint => "uint" | .Uint8 => "uint8" | .Uint16 => "uint16"
  | .Uint32 => "uint32" | .Uint64 => "uint64" | .Uintptr => "uintptr"
  | .Float32 => "float32" | .Float64 => "float64"
  | .Complex64 => "complex64" | .Complex128 => "complex128"
  | .Array => "array" | .Chan => "chan" | .Func => "func"
  | .Interface => "interface" | .Map => "map" | .Pointer => "ptr"
  | .UnsafePointer => "unsafe.Pointer"

mutual
/-- A reflected value (`reflect.Value`), by the kind of its type. A value of a
kind the package does not look into is `other`, which carries its kind and the
text `fmt` prints for it under `%v`. The values `int n` and `str s` are of a
type without formatting methods (`int`, `string`, `type Age int`). The values
`intFmt n shown` and `strFmt s shown` are of kind `Int` and `String` too, of a
type that has a `Format`, `Error` or `String` method of its own (`time.Month`,
an enumeration with a stringer): `v.Int()` is `n`, `v.String()` is `s`, and
`fmt` prints `shown` for `v.Interface()` under `%v`. -/
inductive Value where
  | int (n : Int)
  | str (s : String)
  | struct (fields : List StructField)
  | slice (elems : List Value)
  | other (kind : OtherKind) (shown : String)
  | intFmt (n : Int) (shown : String)
  | strFmt (s : String) (shown : String)
/-- A struct field: its name, the `validate` entry of its tag if it has one
(`Tag.Lookup("validate")`), whether it is exported, and its value. -/
inductive StructField where
  | mk (Name : String) (validate : Option String) (IsExported : Bool) (value : Value)
end

/-- The name of a field. -/
def StructField.Name : StructField → String
  | .mk n _ _ _ => n

/-- The value of a field. -/
def StructField.value : StructField → Value
  | .mk _ _ _ v => v

/-- The `validate` entry of the tag of a field, if it has one. -/
def StructField.validate : StructField → Option String
  | .mk _ tag _ _ => tag

/-- Whether a field is exported. -/
def StructField.IsExported : StructField → Bool
  | .mk _ _ e _ => e

/-- The text of `v.Type().Kind()` under `%s`. -/
def Value.Kind : Value → String
  | .int _ => "int"
  | .str _ => "string"
  | .struct _ => "struct"
  | .slice _ => "slice"
  | .other k _ => k.String
  | .intFmt _ _ => "int"
  | .strFmt _ _ => "string"

mutual
/-- The text `fmt` prints under `%v` for a value; `methods` tells whether `fmt`
may call the formatting method of the value, which it may at the top and in
the exported fields below it, and may not below a field that is not exported
(`CanInterface`). An int is printed in decimal, a string as it is, a value
with a formatting method as that method prints it, a struct as its field
values between braces and a slice as its elements between brackets, separated
by one space. -/
def Value.showAt (methods : Bool) : Value → String
  | .int n => toString n
  | .str s => s
  | .struct fs => "\x7b" ++ showFieldsAt methods fs ++ "\x7d"
  | .slice es => "[" ++ showElemsAt methods es ++ "]"
  | .other _ s => s
  | .intFmt n shown => if methods then shown else toString n
  | .strFmt s shown => if methods then shown else s
/-- The field values of a struct, separated by one space. -/
def showFieldsAt (methods : Bool) : List StructField → String
  | [] => ""
  | [.mk _ _ exported v] => Value.showAt (methods && exported) v
  | .mk _ _ exported v :: f :: fs =>
    Value.showAt (methods && exported) v ++ " " ++ showFieldsAt methods (f :: fs)
/-- The elements of a slice, separated by one space. -/
def showElemsAt (methods : Bool) : List Value → String
  | [] => ""
  | [v] => Value.showAt methods v
  | v :: w :: vs => Value.showAt methods v ++ " " ++ showElemsAt methods (w :: vs)
end

/-- The text `fmt` prints for `v.Interface()` under `%v`. -/
def Value.show (v : Value) : String :=
  Value.showAt true v

/-! ## Errors (`validator.go`) -/

/-- A Go `error` value of the package: one of its three sentinels, or an error
made by `fmt.Errorf`, given by its text. -/
inductive error where
  | ErrNotStruct
  | ErrInvalidValidatorSyntax
  | ErrValidateForUnexportedFields
  | Errorf (text : String)
  deriving DecidableEq, Repr

/-- The method `Error()` of an `error`. -/
def error.Error : error → String
  | .ErrNotStruct => "wrong argument given, should be a struct"
  | .ErrInvalidValidatorSyntax => "invalid validator syntax"
  | .ErrValidateForUnexportedFields => "validation for unexported field is not allowed"
  | .Errorf text => text

/-- The struct `ValidationError`; `Err = none` is the nil error. -/
structure ValidationError where
  Err : Option error
  deriving DecidableEq, Repr

/-- The slice type `ValidationErrors`; the nil slice is the empty list. -/
abbrev ValidationErrors := List ValidationError

/-- The function `addValidationError`: append one error to the collection. -/
def addValidationError (validationErrors : ValidationErrors) (err : error) : ValidationErrors :=
  validationErrors ++ [ValidationError.mk (some err)]

/-- The function `addFieldValidationError`: a non-nil error is appended behind
the name and the value of the field, a nil error leaves the collection as it is. -/
def addFieldValidationError (validationErrors : ValidationErrors) (t : String) (v : Value)
    (validationError : ValidationError) : ValidationErrors :=
  match validationError.Err with
  | some err =>
    addValidationError validationErrors
      (error.Errorf ("field: " ++ t ++ ", value: " ++ v.show ++ ", error: " ++ err.Error))
  | none => validationErrors

/-- The loop of `ValidationErrors.Error` over the entries that are left, with
the messages gathered so far; `none` is the panic of `err.Err.Error()` on an
entry whose `Err` is nil. -/
def ValidationErrors.Error.loop : ValidationErrors → List String → Option (List String)
  | [], messages => some messages
  | err :: rest, messages =>
    match err.Err with
    | none => none
    | some e => ValidationErrors.Error.loop rest (messages ++ [e.Error])

/-- The method `ValidationErrors.Error()`: the messages of the entries, joined
by a newline. -/
def ValidationErrors.Error (v : ValidationErrors) : Option String :=
  (ValidationErrors.Error.loop v []).map (fun messages => strings.Join messages "\n")

/-! ## The rule evaluators -/

/-- The struct `validateLen` (`validate_len.go`). -/
structure validateLen where
  len : Int
  deriving DecidableEq

/-- The struct `validateMin` (`validate_min.go`). -/
structure validateMin where
  min : Int
  deriving DecidableEq

/-- The struct `validateMax` (`validate_max.go`). -/
structure validateMax where
  max : Int
  deriving DecidableEq

/-- The struct `validateIn` (`validate_in.go`); the map `values` is the finite
set of its keys. -/
structure validateIn where
  values : Finset String
  deriving DecidableEq

/-- The order in which a `range` over a map with the given keys visits them. -/
abbrev MapRange := Finset String → List String

/-- A `MapRange` visits every key of the map once and nothing else. -/
def MapRange.Valid (range : MapRange) : Prop :=
  ∀ m : Finset String, (range m).Nodup ∧ ∀ k, k ∈ range m ↔ k ∈ m

/-- The method `validateLen.validate`. -/
def validateLen.validate (o : validateLen) (v : Value) : ValidationError :=
  match v with
  | .str stringValue =>
    if (stringValue.length : Int) ≠ o.len then
      ⟨some (.Errorf ("should has fixed length " ++ toString o.len))⟩
    else ⟨none⟩
  | .strFmt stringValue _ =>
    if (stringValue.length : Int) ≠ o.len then
      ⟨some (.Errorf ("should has fixed length " ++ toString o.len))⟩
    else ⟨none⟩
  | _ => ⟨some (.Errorf ("validation parameter 'len' isn't defined for " ++ v.Kind))⟩

/-- The method `validateMin.validate`. -/
def validateMin.validate (o : validateMin) (v : Value) : ValidationError :=
  match v with
  | .int intValue =>
    if intValue < o.min then
      ⟨some (.Errorf ("shouldn't be less than " ++ toString o.min))⟩
    else ⟨none⟩
  | .str stringValue =>
    if (stringValue.length : Int) < o.min then
      ⟨some (.Errorf ("shouldn't be shorter than " ++ toString o.min))⟩
    else ⟨none⟩
  | .intFmt intValue _ =>
    if intValue < o.min then
      ⟨some (.Errorf ("shouldn't be less than " ++ toString o.min))⟩
    else ⟨none⟩
  | .strFmt stringValue _ =>
    if (stringValue.length : Int) < o.min then
      ⟨some (.Errorf ("shouldn't be shorter than " ++ toString o.min))⟩
    else ⟨none⟩
  | _ => ⟨some (.Errorf ("validation parameter 'min' isn't defined for " ++ v.Kind))⟩

/-- The method `validateMax.validate`. -/
def validateMax.validate (o : validateMax) (v : Value) : ValidationError :=
  match v with
  | .int intValue =>
    if intValue > o.max then
      ⟨some (.Errorf ("shouldn't be great than " ++ toString o.max))⟩
    else ⟨none⟩
  | .str stringValue =>
    if (stringValue.length : Int) > o.max then
      ⟨some (.Errorf ("shouldn't be longer than " ++ toString o.max))⟩
    else ⟨none⟩
  | .intFmt intValue _ =>
    if intValue > o.max then
      ⟨some (.Errorf ("shouldn't be great than " ++ toString o.max))⟩
    else ⟨none⟩
  | .strFmt stringValue _ =>
    if (stringValue.length : Int) > o.max then
      ⟨some (.Errorf ("shouldn't be longer than " ++ toString o.max))⟩
    else ⟨none⟩
  | _ => ⟨some (.Errorf ("validation parameter 'max'' isn't defined for " ++ v.Kind))⟩

/-- The method `validateIn.showValues`: the keys in the order the `range` over
the map yields them, separated by a comma and a space, between braces. -/
def validateIn.showValues (range : MapRange) (o : validateIn) : String :=
  "\x7b" ++ strings.Join (range o.values) ", " ++ "\x7d"

/-- The method `validateIn.validate`: for a value of kind `Int` or `String` the
key looked up is the text of `fmt.Sprintf("%v", v.Interface())`. -/
def validateIn.validate (range : MapRange) (o : validateIn) (v : Value) : ValidationError :=
  match v with
  | .int _ | .str _ | .intFmt _ _ | .strFmt _ _ =>
    let stringValue := v.show
    if stringValue ∉ o.values then
      ⟨some (.Errorf ("should be one of " ++ o.showValues range))⟩
    else ⟨none⟩
  | _ => ⟨some (.Errorf ("validation parameter 'in' isn't defined for " ++ v.Kind))⟩

/-- The interface `validationRule` (`validation_rule.go`) with its four
implementations. -/
inductive validationRule where
  | len (o : validateLen)
  | min (o : validateMin)
  | max (o : validateMax)
  | isIn (o : validateIn)
  deriving DecidableEq

/-- The method `validate` of the interface `validationRule`. -/
def validationRule.validate (range : MapRange) : validationRule → Value → ValidationError
  | .len o, v => o.validate v
  | .min o, v => o.validate v
  | .max o, v => o.validate v
  | .isIn o, v => o.validate range v

/-! ## The rule parser (`validation_rule.go`) -/

/-- The body of the loop of `parseValidationRules` over the clauses `params`,
with the rules built so far; `none` is the panic of `parts[1]` on a clause
that has no `:`. -/
def parseValidationRules.loop :
    List String → List validationRule → Option (List validationRule × Option error)
  | [], validationRules => some (validationRules, none)
  | param :: params, validationRules =>
    let parts := strings.Split param ':'
    let name := parts.headD ""
    if name = "len" then
      match parts[1]? with
      | none => none
      | some arg =>
        match strconv.Atoi arg with
        | none => some ([], some .ErrInvalidValidatorSyntax)
        | some ln => loop params (validationRules ++ [.len ⟨ln⟩])
    else if name = "min" then
      match parts[1]? with
      | none => none
      | some arg =>
        match strconv.Atoi arg with
        | none => some ([], some .ErrInvalidValidatorSyntax)
        | some min => loop params (validationRules ++ [.min ⟨min⟩])
    else if name = "max" then
      match parts[1]? with
      | none => none
      | some arg =>
        match strconv.Atoi arg with
        | none => some ([], some .ErrInvalidValidatorSyntax)
        | some max => loop params (validationRules ++ [.max ⟨max⟩])
    else if name = "in" then
      match parts[1]? with
      | none => none
      | some arg =>
        let values := strings.TrimSpace arg
        let mappedValues : Finset String :=
          if values ≠ "" then (strings.Split values ',').foldl (fun m value => insert value m) ∅
          else ∅
        loop params (validationRules ++ [.isIn ⟨mappedValues⟩])
    else loop params validationRules

/-- The function `parseValidationRules`: the rule list and the error it
returns, or `none` when it panics. -/
def parseValidationRules (s : String) : Option (List validationRule × Option error) :=
  parseValidationRules.loop (strings.Split s ';') []

/-! ## The structural walker (`validator.go`) -/

/-- The function `validateField`: every rule in turn, on one value. -/
def validateField (range : MapRange) (validationRules : List validationRule)
    (typeField : String) (valueField : Value) (validationErrors : ValidationErrors) :
    ValidationErrors :=
  validationRules.foldl (fun errs rule =>
    addFieldValidationError errs typeField valueField (rule.validate range valueField))
    validationErrors

/-- The part of the loop body of `validateStruct` from the call of
`parseValidationRules` on: a parse error is added to the collection, otherwise
the rules are applied to every element of a slice, or to the value itself.
`none` is a panic of the parser, which nothing recovers. -/
def validateStruct.applyRules (range : MapRange) (name : String) (validationParams : String)
    (valueField : Value) (validationErrors : ValidationErrors) : Option ValidationErrors :=
  match parseValidationRules validationParams with
  | none => none
  | some (_, some err) => some (addValidationError validationErrors err)
  | some (validationRules, none) =>
    match valueField with
    | .slice elems =>
      some (elems.foldl (fun errs element =>
        validateField range validationRules name element errs) validationErrors)
    | _ => some (validateField range validationRules name valueField validationErrors)

mutual
/-- The body of the loop of `validateStruct` for one field, with the collection
built so far; a `continue` of the loop is the return of the collection. The
recursive call of `validateStruct` on a nested struct is the loop on its fields
from the empty collection. -/
def validateStruct.body (range : MapRange) :
    StructField → ValidationErrors → Option ValidationErrors
  | .mk _ none _ _, validationErrors => some validationErrors
  | .mk _ (some _) false _, validationErrors =>
    some (addValidationError validationErrors .ErrValidateForUnexportedFields)
  | .mk name (some validationParams) true (.struct fields), validationErrors =>
    match validateStruct.loop range fields [] with
    | none => none
    | some validationErrs =>
      validateStruct.applyRules range name validationParams (.struct fields)
        (validationErrs.foldl (fun errs validationError =>
          addFieldValidationError errs name (.struct fields) validationError)
          validationErrors)
  | .mk name (some validationParams) true valueField, validationErrors =>
    validateStruct.applyRules range name validationParams valueField validationErrors
termination_by structural f => f
/-- The loop of `validateStruct` over the fields that are left, with the
collection built so far. -/
def validateStruct.loop (range : MapRange) :
    List StructField → ValidationErrors → Option ValidationErrors
  | [], validationErrors => some validationErrors
  | typeField :: rest, validationErrors =>
    match validateStruct.body range typeField validationErrors with
    | none => none
    | some validationErrors => validateStruct.loop range rest validationErrors
termination_by structural fs => fs
end

/-- The function `validateStruct` on a struct with the given fields. -/
def validateStruct (range : MapRange) (fields : List StructField) : Option ValidationErrors :=
  validateStruct.loop range fields []

/-- The `error` value `Validate` returns: nil, a plain error of the package,
or a `ValidationErrors` collection. -/
inductive ValidateResult where
  | nil
  | err (e : error)
  | errs (validationErrors : ValidationErrors)
  deriving DecidableEq

/-- The function `Validate` on the reflected value of its argument; `none` is
a panic of the parser during the walk. -/
def Validate (range : MapRange) (v : Value) : Option ValidateResult :=
  match v with
  | .struct fields =>
    match validateStruct range fields with
    | none => none
    | some validationErrors =>
      if validationErrors ≠ [] then some (.errs validationErrors) else some .nil
  | _ => some (.err .ErrNotStruct)

/-! ## Notions used to state the claims -/

/-- The entry `addFieldValidationError` adds for field `t` with value `v` and
outcome `validationError` of a rule: none for a nil error. -/
def fieldViolation (t : String) (v : Value) (validationError : ValidationError) :
    Option ValidationError :=
  validationError.Err.map (fun err =>
    ValidationError.mk (some (error.Errorf
      ("field: " ++ t ++ ", value: " ++ v.show ++ ", error: " ++ err.Error))))

/-- The violations of the rules `rules` on the value `v` of field `t`: one per
failing rule, in rule order. -/
def ruleViolations (range : MapRange) (rules : List validationRule) (t : String) (v : Value) :
    ValidationErrors :=
  rules.filterMap (fun rule => fieldViolation t v (rule.validate range v))

/-- The text of a violation: `Err.Error()`; the text of the nil error, which
no collection holds, is taken as empty. -/
def ValidationError.text (e : ValidationError) : String :=
  match e.Err with
  | some err => err.Error
  | none => ""

/-- The violation `inner` of a nested record, as the field `t` with value `v`
that holds the record reports it: the text of `inner` behind
`field: <t>, value: <v>, error: `. -/
def wrapViolation (t : String) (v : Value) (inner : ValidationError) : ValidationError :=
  ValidationError.mk (some (error.Errorf
    ("field: " ++ t ++ ", value: " ++ v.show ++ ", error: " ++ inner.text)))

/-- One level of nesting: an exported field `name` annotated `spec` that holds
the next record, between the sibling fields `before` and `after`. -/
structure Level where
  before : List StructField
  name : String
  spec : String
  after : List StructField

/-- The record that holds the record `inner` at nesting depth `path.length`,
through the fields `path` from the outside in. -/
def nestRecord : List Level → List StructField → List StructField
  | [], inner => inner
  | l :: path, inner =>
    l.before ++ [StructField.mk l.name (some l.spec) true (Value.struct (nestRecord path inner))]
      ++ l.after

/-- The prefixes `field: <name>, value: <value>, error: ` of the fields `path`
that hold `inner`, from the outside in: one per level. -/
def pathPrefixes : List Level → List StructField → List String
  | [], _ => []
  | l :: path, inner =>
    ("field: " ++ l.name ++ ", value: " ++ (Value.struct (nestRecord path inner)).show
      ++ ", error: ") :: pathPrefixes path inner

/-- A violation of `inner` as the outermost record of `nestRecord path inner`
reports it: wrapped once by every field of `path`, innermost first. -/
def wrapPath : List Level → List StructField → ValidationError → ValidationError
  | [], _, e => e
  | l :: path, inner, e =>
    wrapViolation l.name (Value.struct (nestRecord path inner)) (wrapPath path inner e)

/-- A base-10 signed integer literal: an optional sign, then one or more
decimal digits. -/
def isBase10Integer (s : String) : Bool :=
  match s.data with
  | '-' :: ds => !ds.isEmpty && ds.all Char.isDigit
  | '+' :: ds => !ds.isEmpty && ds.all Char.isDigit
  | ds => !ds.isEmpty && ds.all Char.isDigit

/-- The text `name:argument` of the clause with the given name and argument. -/
def clauseText (c : String × String) : String :=
  c.1 ++ ":" ++ c.2

/-- The specification string made of the given clauses, separated by `;`. -/
def specOfClauses (cs : List (String × String)) : String :=
  strings.Join (cs.map clauseText) ";"

/-- The membership set of the argument `arg` of an `in` clause: empty when
`arg` without its surrounding white space is empty, otherwise the pieces of the
trimmed `arg` between its commas. -/
def membershipSet (arg : String) : Finset String :=
  if strings.TrimSpace arg = "" then ∅
  else (strings.Split (strings.TrimSpace arg) ',').toFinset

/-- The rule a clause contributes when `parseValidationRules` gets past it:
the descriptor of a clause named `len`, `min`, `max` or `in`, built from the
argument `parts[1]`, and nothing for a clause of any other name. -/
def clauseRule (clause : String) : Option validationRule :=
  let parts := strings.Split clause ':'
  let name := parts.headD ""
  let arg := parts.getD 1 ""
  if name = "len" then (strconv.Atoi arg).map (fun ln => .len ⟨ln⟩)
  else if name = "min" then (strconv.Atoi arg).map (fun min => .min ⟨min⟩)
  else if name = "max" then (strconv.Atoi arg).map (fun max => .max ⟨max⟩)
  else if name = "in" then some (.isIn ⟨membershipSet arg⟩)
  else none

/-- A clause the parser gets past: if its name is `len`, `min`, `max` or `in`
it has an argument `parts[1]`, and for `len`, `min`, `max` that argument is an
integer `strconv.Atoi` accepts. -/
def clauseWellFormed (clause : String) : Bool :=
  let parts := strings.Split clause ':'
  let name := parts.headD ""
  if name = "len" ∨ name = "min" ∨ name = "max" then (parts[1]?.bind strconv.Atoi).isSome
  else if name = "in" then parts[1]?.isSome
  else true

/-- The code points of a key. -/
def keyCodes (s : String) : List Nat :=
  s.data.map Char.toNat

/-- Keys compared by their code points, lexicographically. -/
def keyLe (a b : String) : Prop :=
  keyCodes a ≤ keyCodes b

instance keyLe.decidable : DecidableRel keyLe :=
  fun a b => inferInstanceAs (Decidable (keyCodes a ≤ keyCodes b))

instance keyLe.isTotal : IsTotal String keyLe :=
  ⟨fun a b => le_total (keyCodes a) (keyCodes b)⟩

instance keyLe.isTrans : IsTrans String keyLe :=
  ⟨fun a b c hab hbc => @le_trans (List Nat) _ (keyCodes a) (keyCodes b) (keyCodes c) hab hbc⟩

instance keyLe.isAntisymm : IsAntisymm String keyLe :=
  ⟨fun a b hab hba => by
    have h : keyCodes a = keyCodes b := @le_antisymm (List Nat) _ _ _ hab hba
    apply String.ext
    refine List.map_injective_iff.mpr ?_ h
    intro x y hxy
    exact Char.ext (UInt32.ext hxy)⟩

/-- A `MapRange`: the keys in ascending order of their code points. -/
def ascendingRange : MapRange := fun m =>
  Quot.liftOn m.val (fun l => l.insertionSort keyLe) (fun a b h =>
    List.eq_of_perm_of_sorted
      ((List.perm_insertionSort _ a).trans (h.trans (List.perm_insertionSort _ b).symm))
      (List.sorted_insertionSort _ a) (List.sorted_insertionSort _ b))

/-- A `MapRange`: the keys in descending order of their code points. -/
def descendingRange : MapRange := fun m =>
  (ascendingRange m).reverse

/-- The text of the error a rule returns for a value of a kind it does not
support, up to the name of the kind. -/
def validationRule.undefinedFor : validationRule → String
  | .len _ => "validation parameter 'len' isn't defined for "
  | .min _ => "validation parameter 'min' isn't defined for "
  | .max _ => "validation parameter 'max'' isn't defined for "
  | .isIn _ => "validation parameter 'in' isn't defined for "

/-- The kinds a rule supports: `len` strings; `min`, `max` and `in` ints and
strings. -/
def validationRule.supports : validationRule → Value → Bool
  | .len _, .str _ => true
  | .len _, .strFmt _ _ => true
  | .len _, _ => false
  | _, .int _ => true
  | _, .str _ => true
  | _, .intFmt _ _ => true
  | _, .strFmt _ _ => true
  | _, _ => false

/-- The violation the field `t` reports for the rule `rule` applied to the
value `v` of a kind the rule does not support. -/
def unsupportedViolation (t : String) (v : Value) (rule : validationRule) : ValidationError :=
  ValidationError.mk (some (error.Errorf
    ("field: " ++ t ++ ", value: " ++ v.show ++ ", error: "
      ++ (rule.undefinedFor ++ v.Kind))))

/-- An exported annotated field whose specification fails to parse and whose
value is not a nested record. -/
def badSpecField : StructField → Bool
  | .mk _ (some _) true (.struct _) => false
  | .mk _ (some spec) true _ =>
    decide (parseValidationRules spec = some ([], some .ErrInvalidValidatorSyntax))
  | _ => false

/-- An exported int or string field whose specification parses to a single
rule, which its value fails. -/
def failingSingleRuleField (range : MapRange) : StructField → Bool
  | .mk _ (some spec) true (.int n) =>
    match parseValidationRules spec with
    | some ([rule], none) => (rule.validate range (.int n)).Err.isSome
    | _ => false
  | .mk _ (some spec) true (.str s) =>
    match parseValidationRules spec with
    | some ([rule], none) => (rule.validate range (.str s)).Err.isSome
    | _ => false
  | .mk _ (some spec) true (.intFmt n shown) =>
    match parseValidationRules spec with
    | some ([rule], none) => (rule.validate range (.intFmt n shown)).Err.isSome
    | _ => false
  | .mk _ (some spec) true (.strFmt s shown) =>
    match parseValidationRules spec with
    | some ([rule], none) => (rule.validate range (.strFmt s shown)).Err.isSome
    | _ => false
  | _ => false

/-! ## Basic facts about the collection -/

theorem addFieldValidationError_eq (errs : ValidationErrors) (t : String) (v : Value)
    (e : ValidationError) :
    addFieldValidationError errs t v e = errs ++ (fieldViolation t v e).toList := by
  unfold addFieldValidationError fieldViolation addValidationError
  cases h : e.Err <;> simp

/-- The function `validateField` appends the violations of the rules, in rule
order, to the collection it is given. -/
theorem validateField_eq (range : MapRange) (rules : List validationRule) (t : String)
    (v : Value) (errs : ValidationErrors) :
    validateField range rules t v errs = errs ++ ruleViolations range rules t v := by
  unfold validateField ruleViolations
  induction rules generalizing errs with
  | nil => simp
  | cons r rs ih =>
    rw [List.foldl_cons, ih, addFieldValidationError_eq, List.filterMap_cons]
    cases h : fieldViolation t v (validationRule.validate range r v) <;> simp

theorem foldl_validateField_eq (range : MapRange) (rules : List validationRule) (t : String)
    (elems : List Value) (errs : ValidationErrors) :
    elems.foldl (fun errs element => validateField range rules t element errs) errs
      = errs ++ elems.flatMap (fun element => ruleViolations range rules t element) := by
  induction elems generalizing errs with
  | nil => simp
  | cons e es ih => rw [List.foldl_cons, ih, validateField_eq]; simp

theorem foldl_addFieldValidationError_eq (t : String) (v : Value)
    (inner errs : ValidationErrors) :
    inner.foldl (fun errs e => addFieldValidationError errs t v e) errs
      = errs ++ inner.filterMap (fun e => fieldViolation t v e) := by
  induction inner generalizing errs with
  | nil => simp
  | cons e es ih =>
    rw [List.foldl_cons, ih, addFieldValidationError_eq, List.filterMap_cons]
    cases h : fieldViolation t v e <;> simp

theorem fieldViolation_some (t : String) (v : Value) (e : ValidationError)
    (h : e.Err.isSome) : fieldViolation t v e = some (wrapViolation t v e) := by
  obtain ⟨err, herr⟩ := Option.isSome_iff_exists.mp h
  simp [fieldViolation, wrapViolation, ValidationError.text, herr]

theorem fieldViolation_isSome (t : String) (v : Value) (e x : ValidationError)
    (h : fieldViolation t v e = some x) : x.Err.isSome := by
  unfold fieldViolation at h
  cases he : e.Err with
  | none => simp [he] at h
  | some err => simp [he] at h; subst h; rfl

theorem ruleViolations_isSome (range : MapRange) (rules : List validationRule) (t : String)
    (v : Value) : ∀ e ∈ ruleViolations range rules t v, e.Err.isSome := by
  intro e he
  obtain ⟨r, _, hr⟩ := List.mem_filterMap.mp he
  exact fieldViolation_isSome _ _ _ _ hr

theorem filterMap_fieldViolation_eq (t : String) (v : Value) (inner : ValidationErrors)
    (h : ∀ e ∈ inner, e.Err.isSome) :
    inner.filterMap (fun e => fieldViolation t v e) = inner.map (wrapViolation t v) := by
  induction inner with
  | nil => rfl
  | cons e es ih =>
    rw [List.filterMap_cons, fieldViolation_some t v e (h e (List.mem_cons_self _ _)),
      ih (fun x hx => h x (List.mem_cons_of_mem _ hx))]
    rfl

/-- A rule applied to a value of a kind it does not support returns its
`isn't defined for` error. -/
theorem validate_unsupported (range : MapRange) (rule : validationRule) (v : Value)
    (h : rule.supports v = false) :
    rule.validate range v = ⟨some (.Errorf (rule.undefinedFor ++ v.Kind))⟩ := by
  cases rule <;> cases v <;> first | rfl | (simp [validationRule.supports] at h)

theorem ruleViolations_unsupported (range : MapRange) (rules : List validationRule)
    (t : String) (v : Value) (h : ∀ r ∈ rules, r.supports v = false) :
    ruleViolations range rules t v = rules.map (unsupportedViolation t v) := by
  induction rules with
  | nil => rfl
  | cons r rs ih =>
    have hr := validate_unsupported range r v (h r (List.mem_cons_self _ _))
    have hrs := ih (fun x hx => h x (List.mem_cons_of_mem _ hx))
    unfold ruleViolations at hrs ⊢
    rw [List.filterMap_cons, hrs, hr]
    rfl

/-! ## Splitting, joining and decimal literals -/

theorem intercalate_go_data (sep acc : String) (l : List String) :
    (String.intercalate.go acc sep l).data
      = acc.data ++ (l.map (fun a => sep.data ++ a.data)).flatten := by
  induction l generalizing acc with
  | nil => simp [String.intercalate.go]
  | cons a l ih => simp [String.intercalate.go, ih, List.append_assoc]

theorem Join_data (sep : Char) (l : List String) :
    (strings.Join l (String.singleton sep)).data = [sep].intercalate (l.map String.data) := by
  cases l with
  | nil => rfl
  | cons a l =>
    simp only [strings.Join, String.intercalate, intercalate_go_data]
    induction l generalizing a with
    | nil => simp [List.intercalate]
    | cons b l ih =>
      have := ih b
      simp [List.intercalate, List.intersperse] at this ⊢
      exact this

/-- Splitting at `sep` undoes joining with `sep` pieces that do not hold it. -/
theorem Split_Join (sep : Char) (l : List String) (hl : l ≠ [])
    (h : ∀ s ∈ l, sep ∉ s.data) :
    strings.Split (strings.Join l (String.singleton sep)) sep = l := by
  unfold strings.Split
  rw [Join_data, List.splitOn_intercalate]
  · have hid : (String.mk ∘ String.data) = id := rfl
    rw [List.map_map, hid, List.map_id]
  · simpa using h
  · simpa using hl

theorem Split_clauseText (c : String × String) (h1 : ':' ∉ c.1.data) (h2 : ':' ∉ c.2.data) :
    strings.Split (clauseText c) ':' = [c.1, c.2] := by
  have h := Split_Join ':' [c.1, c.2] (by simp) (by simp [h1, h2])
  exact h

theorem Split_specOfClauses (cs : List (String × String)) (hcs : cs ≠ [])
    (h : ∀ c ∈ cs, ';' ∉ c.1.data ∧ ';' ∉ c.2.data) :
    strings.Split (specOfClauses cs) ';' = cs.map clauseText := by
  refine Split_Join ';' (cs.map clauseText) (by simpa using hcs) ?_
  intro s hs
  obtain ⟨c, hc, rfl⟩ := List.mem_map.mp hs
  have := h c hc
  simp [clauseText, this.1, this.2]

theorem splitOn_append_sep (sep : Char) (xs : List Char) :
    (xs ++ [sep]).splitOn sep = xs.splitOn sep ++ [[]] := by
  unfold List.splitOn
  induction xs with
  | nil => simp [List.splitOnP_cons, List.splitOnP_nil]
  | cons x xs ih =>
    rw [List.cons_append, List.splitOnP_cons, List.splitOnP_cons, ih]
    by_cases hx : (x == sep) = true
    · simp [hx]
    · simp only [hx, if_false]
      cases hsp : List.splitOnP (fun c => c == sep) xs with
      | nil => exact absurd hsp (List.splitOnP_ne_nil _ _)
      | cons p ps => simp [List.modifyHead]

theorem Split_sep_append (sep : Char) (s : String) :
    strings.Split (String.singleton sep ++ s) sep = "" :: strings.Split s sep := by
  unfold strings.Split
  have h : (String.singleton sep ++ s).data = sep :: s.data := rfl
  rw [h]
  unfold List.splitOn
  rw [List.splitOnP_cons]
  simp

theorem Split_append_sep (sep : Char) (s : String) :
    strings.Split (s ++ String.singleton sep) sep = strings.Split s sep ++ [""] := by
  unfold strings.Split
  have h : (s ++ String.singleton sep).data = s.data ++ [sep] := rfl
  rw [h, splitOn_append_sep, List.map_append]
  rfl

theorem Atoi_isBase10Integer (s : String) (v : Int) (h : strconv.Atoi s = some v) :
    isBase10Integer s = true := by
  unfold strconv.Atoi at h
  unfold isBase10Integer
  split <;> simp_all

theorem digitChar_spec (k : Nat) (hk : k < 10) :
    (Nat.digitChar k).isDigit = true ∧ (Nat.digitChar k).toNat - 48 = k
      ∧ Nat.digitChar k ≠ ':' ∧ Nat.digitChar k ≠ ';' ∧ Nat.digitChar k ≠ '-'
      ∧ Nat.digitChar k ≠ '+' := by
  interval_cases k <;> decide

theorem toDigitsCore_append (fuel n : Nat) (ds : List Char) :
    Nat.toDigitsCore 10 fuel n ds = Nat.toDigitsCore 10 fuel n [] ++ ds := by
  induction fuel generalizing n ds with
  | zero => simp [Nat.toDigitsCore]
  | succ fuel ih =>
    simp only [Nat.toDigitsCore]
    split
    · simp
    · rw [ih (n / 10) (_ :: ds), ih (n / 10) [_]]
      simp

theorem toDigitsCore_spec (fuel n : Nat) (h : n < fuel) :
    strconv.digitsValue (Nat.toDigitsCore 10 fuel n []) = n
      ∧ (Nat.toDigitsCore 10 fuel n []) ≠ []
      ∧ ∀ c ∈ Nat.toDigitsCore 10 fuel n [], c.isDigit = true ∧ c ≠ ':' ∧ c ≠ ';'
          ∧ c ≠ '-' ∧ c ≠ '+' := by
  induction fuel generalizing n with
  | zero => omega
  | succ fuel ih =>
    have hd := digitChar_spec (n % 10) (Nat.mod_lt _ (by decide))
    simp only [Nat.toDigitsCore]
    split
    · rename_i h0
      refine ⟨?_, by simp, ?_⟩
      · simp only [strconv.digitsValue, List.foldl_cons, List.foldl_nil, hd.2.1]
        omega
      · intro c hc
        simp only [List.mem_singleton] at hc
        subst hc
        exact ⟨hd.1, hd.2.2⟩
    · rename_i h0
      have hlt : n / 10 < fuel := by omega
      obtain ⟨hv, hne, hall⟩ := ih (n / 10) hlt
      rw [toDigitsCore_append]
      refine ⟨?_, by simp [hne], ?_⟩
      · unfold strconv.digitsValue at hv ⊢
        rw [List.foldl_append, hv]
        simp only [List.foldl_cons, List.foldl_nil, hd.2.1]
        omega
      · intro c hc
        rcases List.mem_append.mp hc with hc | hc
        · exact hall c hc
        · simp only [List.mem_singleton] at hc
          subst hc
          exact ⟨hd.1, hd.2.2⟩

theorem toString_ofNat_data (m : Nat) : (toString (Int.ofNat m)).data = Nat.toDigits 10 m := rfl

theorem toString_negSucc_data (m : Nat) :
    (toString (Int.negSucc m)).data = '-' :: Nat.toDigits 10 (m + 1) := rfl

theorem Atoi_digits (ds : List Char) (hne : ds ≠ [])
    (hall : ∀ c ∈ ds, c.isDigit = true ∧ c ≠ ':' ∧ c ≠ ';' ∧ c ≠ '-' ∧ c ≠ '+')
    (hr : (strconv.digitsValue ds : Int) < (2 : Int) ^ 63) :
    strconv.Atoi (String.mk ds) = some (strconv.digitsValue ds : Int) := by
  unfold strconv.Atoi
  cases ds with
  | nil => exact absurd rfl hne
  | cons c cs =>
    have hc := hall c (List.mem_cons_self _ _)
    have hall2 : (c :: cs).all Char.isDigit = true := by
      rw [List.all_eq_true]
      exact fun x hx => (hall x hx).1
    split
    · rename_i r heq
      simp only [List.cons.injEq] at heq
      exact absurd heq.1 hc.2.2.2.1
    · rename_i r heq
      simp only [List.cons.injEq] at heq
      exact absurd heq.1 hc.2.2.2.2
    · simp only [hall2, List.isEmpty_cons, Bool.not_true, Bool.or_self, Bool.false_eq_true,
        if_false]
      have h0 : -(2 : Int) ^ 63 ≤ (strconv.digitsValue (c :: cs) : Int) := by
        have : (0 : Int) ≤ (strconv.digitsValue (c :: cs) : Int) := Int.ofNat_nonneg _
        omega
      simp only [h0, hr, and_self, if_true]

theorem Atoi_neg_digits (ds : List Char) (hne : ds ≠ [])
    (hall : ∀ c ∈ ds, c.isDigit = true ∧ c ≠ ':' ∧ c ≠ ';' ∧ c ≠ '-' ∧ c ≠ '+')
    (hr : (strconv.digitsValue ds : Int) ≤ (2 : Int) ^ 63) :
    strconv.Atoi (String.mk ('-' :: ds)) = some (-(strconv.digitsValue ds : Int)) := by
  unfold strconv.Atoi
  have hall2 : ds.all Char.isDigit = true := by
    rw [List.all_eq_true]
    exact fun x hx => (hall x hx).1
  have hne2 : ds.isEmpty = false := by
    cases ds with
    | nil => exact absurd rfl hne
    | cons c cs => rfl
  have h0 : -(strconv.digitsValue ds : Int) < (2 : Int) ^ 63 := by
    have : (0 : Int) ≤ (strconv.digitsValue ds : Int) := Int.ofNat_nonneg _
    omega
  have h1 : -(2 : Int) ^ 63 ≤ -(strconv.digitsValue ds : Int) := by omega
  simp only [hall2, hne2, Bool.not_true, Bool.or_self, Bool.false_eq_true, if_false, if_true,
    h0, h1, and_self]

/-- The decimal text of an `int` is read back by `strconv.Atoi`, and holds
neither `:` nor `;`. -/
theorem Atoi_toString (a : Int) (h1 : -(2 : Int) ^ 63 ≤ a) (h2 : a < (2 : Int) ^ 63) :
    strconv.Atoi (toString a) = some a
      ∧ ':' ∉ (toString a).data ∧ ';' ∉ (toString a).data := by
  cases a with
  | ofNat m =>
    obtain ⟨hv, hne, hall⟩ := toDigitsCore_spec (m + 1) m (Nat.lt_succ_self m)
    have hs : toString (Int.ofNat m) = String.mk (Nat.toDigits 10 m) := rfl
    refine ⟨?_, ?_, ?_⟩
    · rw [hs]
      unfold Nat.toDigits
      rw [Atoi_digits _ hne hall (by rw [hv]; exact h2), hv]
      rfl
    · rw [toString_ofNat_data]
      exact fun hmem => (hall _ hmem).2.1 rfl
    · rw [toString_ofNat_data]
      exact fun hmem => (hall _ hmem).2.2.1 rfl
  | negSucc m =>
    obtain ⟨hv, hne, hall⟩ := toDigitsCore_spec (m + 1 + 1) (m + 1) (Nat.lt_succ_self _)
    have hs : toString (Int.negSucc m) = String.mk ('-' :: Nat.toDigits 10 (m + 1)) := rfl
    refine ⟨?_, ?_, ?_⟩
    · rw [hs]
      unfold Nat.toDigits
      have hr : ((m + 1 : Nat) : Int) ≤ (2 : Int) ^ 63 := by
        have : Int.negSucc m = -((m + 1 : Nat) : Int) := rfl
        omega
      rw [Atoi_neg_digits _ hne hall (by rw [hv]; exact hr), hv]
      rfl
    · rw [toString_negSucc_data]
      intro hmem
      rcases List.mem_cons.mp hmem with h | h
      · exact absurd h (by decide)
      · exact (hall _ h).2.1 rfl
    · rw [toString_negSucc_data]
      intro hmem
      rcases List.mem_cons.mp hmem with h | h
      · exact absurd h (by decide)
      · exact (hall _ h).2.2.1 rfl

/-! ## The loop of the rule parser -/

/-- The step of the parser loop on a clause `name:argument` with a single `:`. -/
theorem loop_clauseText (c : String × String) (rest : List String)
    (acc : List validationRule) (h1 : ':' ∉ c.1.data) (h2 : ':' ∉ c.2.data) :
    parseValidationRules.loop (clauseText c :: rest) acc
      = if c.1 = "len" then
          match strconv.Atoi c.2 with
          | none => some ([], some .ErrInvalidValidatorSyntax)
          | some ln => parseValidationRules.loop rest (acc ++ [.len ⟨ln⟩])
        else if c.1 = "min" then
          match strconv.Atoi c.2 with
          | none => some ([], some .ErrInvalidValidatorSyntax)
          | some min => parseValidationRules.loop rest (acc ++ [.min ⟨min⟩])
        else if c.1 = "max" then
          match strconv.Atoi c.2 with
          | none => some ([], some .ErrInvalidValidatorSyntax)
          | some max => parseValidationRules.loop rest (acc ++ [.max ⟨max⟩])
        else if c.1 = "in" then
          parseValidationRules.loop rest (acc ++ [.isIn ⟨
            if strings.TrimSpace c.2 ≠ "" then
              (strings.Split (strings.TrimSpace c.2) ',').foldl (fun m value => insert value m) ∅
            else ∅⟩])
        else parseValidationRules.loop rest acc := by
  rw [parseValidationRules.loop]
  simp only [Split_clauseText c h1 h2, List.headD_cons, List.getElem?_cons_succ,
    List.getElem?_cons_zero]

theorem loop_invalid_bound (cs : List (String × String)) (acc : List validationRule)
    (hform : ∀ c ∈ cs, ':' ∉ c.1.data ∧ ':' ∉ c.2.data)
    (hbad : ∃ c ∈ cs, (c.1 = "len" ∨ c.1 = "min" ∨ c.1 = "max") ∧ isBase10Integer c.2 = false) :
    parseValidationRules.loop (cs.map clauseText) acc
      = some ([], some .ErrInvalidValidatorSyntax) := by
  induction cs generalizing acc with
  | nil => simp at hbad
  | cons c cs ih =>
    have hc := hform c (List.mem_cons_self _ _)
    have hrest : ∀ c ∈ cs, ':' ∉ c.1.data ∧ ':' ∉ c.2.data :=
      fun x hx => hform x (List.mem_cons_of_mem _ hx)
    rw [List.map_cons, loop_clauseText c _ acc hc.1 hc.2]
    -- either this clause is the offending one, or a later one is
    have hint : ∀ v, strconv.Atoi c.2 = some v →
        ∃ c ∈ cs, (c.1 = "len" ∨ c.1 = "min" ∨ c.1 = "max") ∧ isBase10Integer c.2 = false := by
      intro v hv
      obtain ⟨b, hb, hname, hnot⟩ := hbad
      rcases List.mem_cons.mp hb with rfl | hb
      · rw [Atoi_isBase10Integer _ v hv] at hnot; cases hnot
      · exact ⟨b, hb, hname, hnot⟩
    have hother : ¬ (c.1 = "len" ∨ c.1 = "min" ∨ c.1 = "max") →
        ∃ c ∈ cs, (c.1 = "len" ∨ c.1 = "min" ∨ c.1 = "max") ∧ isBase10Integer c.2 = false := by
      intro hno
      obtain ⟨b, hb, hname, hnot⟩ := hbad
      rcases List.mem_cons.mp hb with rfl | hb
      · exact absurd hname hno
      · exact ⟨b, hb, hname, hnot⟩
    by_cases hlen : c.1 = "len"
    · rw [if_pos hlen]
      cases hv : strconv.Atoi c.2 with
      | none => rfl
      | some v => exact ih _ hrest (hint v hv)
    rw [if_neg hlen]
    by_cases hmin : c.1 = "min"
    · rw [if_pos hmin]
      cases hv : strconv.Atoi c.2 with
      | none => rfl
      | some v => exact ih _ hrest (hint v hv)
    rw [if_neg hmin]
    by_cases hmax : c.1 = "max"
    · rw [if_pos hmax]
      cases hv : strconv.Atoi c.2 with
      | none => rfl
      | some v => exact ih _ hrest (hint v hv)
    rw [if_neg hmax]
    have hrestbad := hother (by simp [hlen, hmin, hmax])
    by_cases hin : c.1 = "in"
    · rw [if_pos hin]; exact ih _ hrest hrestbad
    · rw [if_neg hin]; exact ih _ hrest hrestbad

theorem foldl_insert_eq (l : List String) (m : Finset String) :
    l.foldl (fun m value => insert value m) m = m ∪ l.toFinset := by
  induction l generalizing m with
  | nil => simp
  | cons a l ih =>
    rw [List.foldl_cons, ih]
    ext x
    simp only [Finset.mem_union, Finset.mem_insert, List.toFinset_cons]
    tauto

theorem mappedValues_eq (arg : String) :
    (if strings.TrimSpace arg ≠ "" then
        (strings.Split (strings.TrimSpace arg) ',').foldl (fun m value => insert value m) ∅
      else ∅) = membershipSet arg := by
  unfold membershipSet
  by_cases h : strings.TrimSpace arg = ""
  · simp [h]
  · simp [h, foldl_insert_eq]

theorem loop_in_clause (arg : String) (rest : List String) (acc : List validationRule)
    (h : ':' ∉ arg.data) :
    parseValidationRules.loop (("in:" ++ arg) :: rest) acc
      = parseValidationRules.loop rest (acc ++ [.isIn ⟨membershipSet arg⟩]) := by
  have htext : "in:" ++ arg = clauseText ("in", arg) := by
    apply String.ext
    simp [clauseText]
  have hname : ':' ∉ ("in", arg).1.data := by
    show ':' ∉ "in".data
    decide
  rw [htext, loop_clauseText ("in", arg) rest acc hname h]
  simp only [mappedValues_eq]
  rfl

theorem loop_wellFormed (clauses : List String) (acc : List validationRule)
    (h : ∀ clause ∈ clauses, clauseWellFormed clause = true) :
    parseValidationRules.loop clauses acc = some (acc ++ clauses.filterMap clauseRule, none) := by
  induction clauses generalizing acc with
  | nil => simp [parseValidationRules.loop]
  | cons c cs ih =>
    have hc := h c (List.mem_cons_self _ _)
    have hcs : ∀ clause ∈ cs, clauseWellFormed clause = true :=
      fun x hx => h x (List.mem_cons_of_mem _ hx)
    unfold clauseWellFormed at hc
    rw [parseValidationRules.loop, List.filterMap_cons]
    have ih : ∀ acc, parseValidationRules.loop cs acc
        = some (acc ++ cs.filterMap clauseRule, none) := fun acc => ih acc hcs
    generalize List.filterMap clauseRule cs = restRules at ih ⊢
    unfold clauseRule
    simp only [List.getD_eq_getElem?_getD, mappedValues_eq] at hc ⊢
    generalize strings.Split c ':' = parts at hc ⊢
    generalize parts.headD "" = name at hc ⊢
    by_cases hlen : name = "len"
    · subst hlen
      rw [if_pos (Or.inl rfl)] at hc
      obtain ⟨v, hv⟩ := Option.isSome_iff_exists.mp hc
      obtain ⟨arg, harg, hv⟩ := Option.bind_eq_some.mp hv
      simp [harg, hv, ih]
    by_cases hmin : name = "min"
    · subst hmin
      rw [if_pos (Or.inr (Or.inl rfl))] at hc
      obtain ⟨v, hv⟩ := Option.isSome_iff_exists.mp hc
      obtain ⟨arg, harg, hv⟩ := Option.bind_eq_some.mp hv
      simp [harg, hv, ih]
    by_cases hmax : name = "max"
    · subst hmax
      rw [if_pos (Or.inr (Or.inr rfl))] at hc
      obtain ⟨v, hv⟩ := Option.isSome_iff_exists.mp hc
      obtain ⟨arg, harg, hv⟩ := Option.bind_eq_some.mp hv
      simp [harg, hv, ih]
    by_cases hin : name = "in"
    · subst hin
      rw [if_neg (by decide), if_pos rfl] at hc
      obtain ⟨arg, harg⟩ := Option.isSome_iff_exists.mp hc
      simp [harg, ih]
    · simp [hlen, hmin, hmax, hin, ih]

theorem loop_empty_clause (rest : List String) (acc : List validationRule) :
    parseValidationRules.loop ("" :: rest) acc = parseValidationRules.loop rest acc := by
  rw [parseValidationRules.loop]
  rfl

theorem loop_append_empty_clause (clauses : List String) (acc : List validationRule) :
    parseValidationRules.loop (clauses ++ [""]) acc = parseValidationRules.loop clauses acc := by
  induction clauses generalizing acc with
  | nil => rw [List.nil_append, loop_empty_clause]
  | cons c cs ih =>
    rw [List.cons_append, parseValidationRules.loop, parseValidationRules.loop]
    simp only [ih]

/-- The specification `min:a;max:b`, with `a` and `b` in the range of `int`,
parses to the rule `min` with bound `a`, then the rule `max` with bound `b`. -/
theorem parse_min_max (a b : Int) (ha1 : -(2 : Int) ^ 63 ≤ a) (ha2 : a < (2 : Int) ^ 63)
    (hb1 : -(2 : Int) ^ 63 ≤ b) (hb2 : b < (2 : Int) ^ 63) :
    parseValidationRules ("min:" ++ toString a ++ ";max:" ++ toString b)
      = some ([.min ⟨a⟩, .max ⟨b⟩], none) := by
  obtain ⟨hpa, hca, hsa⟩ := Atoi_toString a ha1 ha2
  obtain ⟨hpb, hcb, hsb⟩ := Atoi_toString b hb1 hb2
  have htext : "min:" ++ toString a ++ ";max:" ++ toString b
      = specOfClauses [("min", toString a), ("max", toString b)] := by
    apply String.ext
    simp [specOfClauses, clauseText, strings.Join, String.intercalate,
      String.intercalate.go]
  have hmin : ':' ∉ ("min", toString a).1.data := by
    show ':' ∉ "min".data
    decide
  have hmax : ':' ∉ ("max", toString b).1.data := by
    show ':' ∉ "max".data
    decide
  have hsemi : ∀ c ∈ [("min", toString a), ("max", toString b)],
      ';' ∉ c.1.data ∧ ';' ∉ c.2.data := by
    intro c hc
    simp only [List.mem_cons, List.mem_singleton, List.not_mem_nil, or_false] at hc
    rcases hc with rfl | rfl
    · exact ⟨by show ';' ∉ "min".data; decide, hsa⟩
    · exact ⟨by show ';' ∉ "max".data; decide, hsb⟩
  unfold parseValidationRules
  rw [htext, Split_specOfClauses _ (by simp) hsemi]
  simp only [List.map_cons, List.map_nil]
  rw [loop_clauseText ("min", toString a) _ _ hmin hca]
  have e1 : ¬ (("min", toString a).1 = "len") := by show ¬ ("min" = "len"); decide
  rw [if_neg e1, if_pos (show ("min", toString a).1 = "min" from rfl)]
  simp only [hpa, List.nil_append]
  rw [loop_clauseText ("max", toString b) _ _ hmax hcb]
  have e2 : ¬ (("max", toString b).1 = "len") := by show ¬ ("max" = "len"); decide
  have e3 : ¬ (("max", toString b).1 = "min") := by show ¬ ("max" = "min"); decide
  rw [if_neg e2, if_neg e3, if_pos (show ("max", toString b).1 = "max" from rfl)]
  simp only [hpb]
  rfl

/-- The parser on a specification all of whose clauses are well formed: it
returns, without error, one descriptor per clause named `len`, `min`, `max` or
`in`, in clause order; the clauses of any other name, the empty clause
included, contribute nothing. -/
theorem parse_wellFormed (s : String)
    (h : ∀ clause ∈ strings.Split s ';', clauseWellFormed clause = true) :
    parseValidationRules s = some ((strings.Split s ';').filterMap clauseRule, none) := by
  unfold parseValidationRules
  rw [loop_wellFormed _ [] h, List.nil_append]

/-- The empty clauses of a leading or a trailing `;` contribute nothing, and
the empty specification gives the empty rule list: for every specification
`s`, also one on which the parser fails or panics. -/
theorem parse_empty_clauses (s : String) :
    parseValidationRules (";" ++ s) = parseValidationRules s
    ∧ parseValidationRules (s ++ ";") = parseValidationRules s
    ∧ parseValidationRules "" = some ([], none) := by
  refine ⟨?_, ?_, by decide⟩
  · unfold parseValidationRules
    rw [show (";" : String) = String.singleton ';' from rfl, Split_sep_append,
      loop_empty_clause]
  · unfold parseValidationRules
    rw [show (";" : String) = String.singleton ';' from rfl, Split_append_sep,
      loop_append_empty_clause]

/-- An error of the parser is always `ErrInvalidValidatorSyntax`, with the nil
rule list. -/
theorem loop_error_form (clauses : List String) (acc rules : List validationRule)
    (err : error) (h : parseValidationRules.loop clauses acc = some (rules, some err)) :
    rules = [] ∧ err = .ErrInvalidValidatorSyntax := by
  induction clauses generalizing acc with
  | nil => simp [parseValidationRules.loop] at h
  | cons c cs ih =>
    rw [parseValidationRules.loop] at h
    simp only [] at h
    repeat' split at h
    all_goals first
      | exact ih _ h
      | (simp only [Option.some.injEq, Prod.mk.injEq] at h
         exact ⟨h.1.symm, h.2.symm⟩)
      | exact absurd h (by simp)

/-- The parser reads a clause with two or more `:` as it reads the clause made
of its first two parts: what follows the second `:` is ignored. -/
theorem loop_extra_parts (name arg : String) (extra rest : List String)
    (acc : List validationRule)
    (h : ∀ part ∈ name :: arg :: extra, ':' ∉ part.data) :
    strings.Split (strings.Join (name :: arg :: extra) ":") ':' = name :: arg :: extra
    ∧ parseValidationRules.loop (strings.Join (name :: arg :: extra) ":" :: rest) acc
      = parseValidationRules.loop (clauseText (name, arg) :: rest) acc := by
  have hs : strings.Split (strings.Join (name :: arg :: extra) ":") ':'
      = name :: arg :: extra :=
    Split_Join ':' (name :: arg :: extra) (by simp) h
  have hc : strings.Split (clauseText (name, arg)) ':' = [name, arg] :=
    Split_clauseText (name, arg) (h name (by simp)) (h arg (by simp))
  refine ⟨hs, ?_⟩
  rw [parseValidationRules.loop, parseValidationRules.loop]
  simp only [hs, hc, List.headD_cons, List.getElem?_cons_succ, List.getElem?_cons_zero]

/-! ## The walker only ever appends to the collection -/

theorem applyRules_eq (range : MapRange) (name params : String) (v : Value)
    (errs : ValidationErrors) :
    validateStruct.applyRules range name params v errs
      = (validateStruct.applyRules range name params v []).map (fun own => errs ++ own) := by
  unfold validateStruct.applyRules
  rcases parseValidationRules params with _ | ⟨rules, _ | err⟩
  · rfl
  · cases v <;> simp only [foldl_validateField_eq] <;> simp [validateField_eq]
  · simp [addValidationError]

theorem body_eq (range : MapRange) (f : StructField) (errs : ValidationErrors) :
    validateStruct.body range f errs
      = (validateStruct.body range f []).map (fun own => errs ++ own) := by
  rcases f with ⟨name, _ | params, _ | _, v⟩
  · simp [validateStruct.body]
  · simp [validateStruct.body]
  · simp [validateStruct.body, addValidationError]
  · cases v with
    | struct fields =>
      simp only [validateStruct.body]
      cases validateStruct.loop range fields [] with
      | none => rfl
      | some inner =>
        simp only [foldl_addFieldValidationError_eq, List.nil_append]
        rw [applyRules_eq range name params _ (errs ++ _), applyRules_eq range name params _
          (List.filterMap _ _)]
        cases validateStruct.applyRules range name params (Value.struct fields) [] <;> simp
    | int n => simp only [validateStruct.body]; exact applyRules_eq ..
    | str s => simp only [validateStruct.body]; exact applyRules_eq ..
    | slice es => simp only [validateStruct.body]; exact applyRules_eq ..
    | other k sh => simp only [validateStruct.body]; exact applyRules_eq ..
    | intFmt n sh => simp only [validateStruct.body]; exact applyRules_eq ..
    | strFmt s sh => simp only [validateStruct.body]; exact applyRules_eq ..

/-- The loop of `validateStruct` appends to the collection it is given what it
produces from the empty collection. -/
theorem loop_eq (range : MapRange) (fs : List StructField) (errs : ValidationErrors) :
    validateStruct.loop range fs errs
      = (validateStruct.loop range fs []).map (fun own => errs ++ own) := by
  induction fs generalizing errs with
  | nil => simp [validateStruct.loop]
  | cons f fs ih =>
    simp only [validateStruct.loop]
    rw [body_eq]
    cases validateStruct.body range f [] with
    | none => rfl
    | some own =>
      simp only [Option.map_some']
      rw [ih (errs ++ own), ih own]
      cases validateStruct.loop range fs [] <;> simp

theorem loop_append (range : MapRange) (fs1 fs2 : List StructField) (errs : ValidationErrors) :
    validateStruct.loop range (fs1 ++ fs2) errs
      = (validateStruct.loop range fs1 errs).bind (fun mid => validateStruct.loop range fs2 mid) := by
  induction fs1 generalizing errs with
  | nil => simp [validateStruct.loop]
  | cons f fs ih =>
    simp only [List.cons_append, validateStruct.loop]
    cases validateStruct.body range f errs with
    | none => rfl
    | some mid => exact ih mid

theorem validateStruct_singleton (range : MapRange) (f : StructField) :
    validateStruct range [f] = validateStruct.body range f [] := by
  unfold validateStruct
  simp only [validateStruct.loop]
  cases validateStruct.body range f [] <;> rfl

/-- The walk of the fields `fs1 ++ fs2` is the walk of `fs1` followed by the walk
of `fs2`; it panics when one of the two does. -/
theorem validateStruct_append (range : MapRange) (fs1 fs2 : List StructField) :
    validateStruct range (fs1 ++ fs2)
      = (validateStruct range fs1).bind (fun v1 =>
          (validateStruct range fs2).map (fun v2 => v1 ++ v2)) := by
  unfold validateStruct
  rw [loop_append]
  cases validateStruct.loop range fs1 [] with
  | none => rfl
  | some v1 => exact loop_eq range fs2 v1

theorem applyRules_isSome (range : MapRange) (name params : String) (v : Value)
    (own : ValidationErrors) (h : validateStruct.applyRules range name params v [] = some own) :
    ∀ e ∈ own, e.Err.isSome := by
  unfold validateStruct.applyRules at h
  rcases hp : parseValidationRules params with _ | ⟨rules, _ | err⟩
  · simp [hp] at h
  · rw [hp] at h
    cases v <;> simp only [foldl_validateField_eq] at h <;>
      simp only [validateField_eq, List.nil_append, Option.some.injEq] at h <;> subst h
    case slice es =>
      intro e he
      obtain ⟨x, _, hx⟩ := List.mem_flatMap.mp he
      exact ruleViolations_isSome _ _ _ _ e hx
    all_goals exact ruleViolations_isSome _ _ _ _
  · simp [hp, addValidationError] at h
    subst h
    simp

theorem body_isSome (range : MapRange) (f : StructField) (own : ValidationErrors)
    (h : validateStruct.body range f [] = some own) : ∀ e ∈ own, e.Err.isSome := by
  rcases f with ⟨name, _ | params, _ | _, v⟩
  · simp [validateStruct.body] at h; subst h; simp
  · simp [validateStruct.body] at h; subst h; simp
  · simp [validateStruct.body, addValidationError] at h; subst h; simp
  · cases v with
    | struct fields =>
      simp only [validateStruct.body] at h
      cases hl : validateStruct.loop range fields [] with
      | none => simp [hl] at h
      | some inner =>
        simp only [hl, foldl_addFieldValidationError_eq, List.nil_append] at h
        rw [applyRules_eq] at h
        cases ha : validateStruct.applyRules range name params (Value.struct fields) [] with
        | none => simp [ha] at h
        | some own2 =>
          simp only [ha, Option.map_some', Option.some.injEq] at h
          subst h
          intro e he
          rcases List.mem_append.mp he with he | he
          · obtain ⟨x, _, hx⟩ := List.mem_filterMap.mp he
            exact fieldViolation_isSome _ _ _ _ hx
          · exact applyRules_isSome _ _ _ _ _ ha e he
    | int n => simp only [validateStruct.body] at h; exact applyRules_isSome _ _ _ _ _ h
    | str s => simp only [validateStruct.body] at h; exact applyRules_isSome _ _ _ _ _ h
    | slice es => simp only [validateStruct.body] at h; exact applyRules_isSome _ _ _ _ _ h
    | other k sh => simp only [validateStruct.body] at h; exact applyRules_isSome _ _ _ _ _ h
    | intFmt n sh => simp only [validateStruct.body] at h; exact applyRules_isSome _ _ _ _ _ h
    | strFmt s sh => simp only [validateStruct.body] at h; exact applyRules_isSome _ _ _ _ _ h

/-- No entry of a collection the walker returns holds the nil error. -/
theorem validateStruct_isSome (range : MapRange) (fs : List StructField)
    (errs : ValidationErrors) (h : validateStruct range fs = some errs) :
    ∀ e ∈ errs, e.Err.isSome := by
  unfold validateStruct at h
  induction fs generalizing errs with
  | nil => simp [validateStruct.loop] at h; subst h; simp
  | cons f fs ih =>
    simp only [validateStruct.loop] at h
    cases hb : validateStruct.body range f [] with
    | none => simp [hb] at h
    | some own =>
      simp only [hb] at h
      rw [loop_eq] at h
      cases hl : validateStruct.loop range fs [] with
      | none => simp [hl] at h
      | some rest =>
        simp only [hl, Option.map_some', Option.some.injEq] at h
        subst h
        intro e he
        rcases List.mem_append.mp he with he | he
        · exact body_isSome _ _ _ hb e he
        · exact ih rest hl e he

/-- The walk of a record with the single exported annotated field `name` that
holds the record `fields`: the violations of `fields`, each wrapped once, then
what the rules of the field itself produce. -/
theorem validateStruct_nested (range : MapRange) (name spec : String)
    (fields : List StructField) :
    validateStruct range [StructField.mk name (some spec) true (Value.struct fields)]
      = (validateStruct range fields).bind (fun inner =>
          (validateStruct.applyRules range name spec (Value.struct fields) []).map (fun own =>
            inner.map (wrapViolation name (Value.struct fields)) ++ own)) := by
  rw [validateStruct_singleton]
  simp only [validateStruct.body]
  cases hl : validateStruct range fields with
  | none => unfold validateStruct at hl; simp [hl]
  | some inner =>
    have hsome := validateStruct_isSome range fields inner hl
    unfold validateStruct at hl
    simp only [hl, foldl_addFieldValidationError_eq, List.nil_append, Option.some_bind]
    rw [applyRules_eq, filterMap_fieldViolation_eq _ _ _ hsome]

theorem wrapPath_text (path : List Level) (inner : List StructField) (e : ValidationError) :
    (wrapPath path inner e).text = (pathPrefixes path inner).foldr (fun p t => p ++ t) e.text := by
  induction path with
  | nil => rfl
  | cons l path ih =>
    simp only [wrapPath, pathPrefixes, List.foldr_cons, ← ih]
    rfl

/-- The violations of a record held at depth `path.length` are found, in
order and wrapped once per level, in the collection of the outermost record. -/
theorem nestRecord_violations (range : MapRange) (path : List Level) (inner : List StructField)
    (out : ValidationErrors) (h : validateStruct range (nestRecord path inner) = some out) :
    ∃ errs before after, validateStruct range inner = some errs
      ∧ out = before ++ errs.map (wrapPath path inner) ++ after := by
  induction path generalizing out with
  | nil => exact ⟨out, [], [], h, by simp [wrapPath]⟩
  | cons l path ih =>
    simp only [nestRecord] at h
    rw [validateStruct_append, validateStruct_append, validateStruct_nested] at h
    cases hb : validateStruct range l.before with
    | none => simp [hb] at h
    | some b =>
      cases hn : validateStruct range (nestRecord path inner) with
      | none => simp [hb, hn] at h
      | some mid =>
        cases ho : validateStruct.applyRules range l.name l.spec
            (Value.struct (nestRecord path inner)) [] with
        | none => simp [hb, hn, ho] at h
        | some own =>
          cases ha : validateStruct range l.after with
          | none => simp [hb, hn, ho, ha] at h
          | some a =>
            simp only [hb, hn, ho, ha, Option.some_bind, Option.map_some',
              Option.some.injEq] at h
            obtain ⟨errs, b2, a2, herrs, hmid⟩ := ih mid hn
            refine ⟨errs, b ++ b2.map (wrapViolation l.name (Value.struct (nestRecord path inner))),
              a2.map (wrapViolation l.name (Value.struct (nestRecord path inner))) ++ own ++ a,
              herrs, ?_⟩
            subst h hmid
            simp [wrapPath, List.map_append, List.append_assoc]

/-- The walk of a record whose first field has a tag and is not exported: the
error of the unexported field, then the walk of the other fields. -/
theorem validateStruct_unexported_cons (range : MapRange) (name spec : String) (v : Value)
    (rest : List StructField) :
    validateStruct range (StructField.mk name (some spec) false v :: rest)
      = (validateStruct range rest).map (fun errs =>
          ValidationError.mk (some .ErrValidateForUnexportedFields) :: errs) := by
  have h := validateStruct_append range [StructField.mk name (some spec) false v] rest
  rw [List.singleton_append] at h
  rw [h, validateStruct_singleton]
  simp only [validateStruct.body, addValidationError, List.nil_append, Option.some_bind]
  cases validateStruct range rest <;> rfl

/-- The walk of a record whose first field has no tag is the walk of the other
fields. -/
theorem validateStruct_untagged_cons (range : MapRange) (name : String) (exported : Bool)
    (v : Value) (rest : List StructField) :
    validateStruct range (StructField.mk name none exported v :: rest)
      = validateStruct range rest := by
  have h := validateStruct_append range [StructField.mk name none exported v] rest
  rw [List.singleton_append] at h
  rw [h, validateStruct_singleton]
  simp only [validateStruct.body, Option.some_bind]
  cases validateStruct range rest <;> simp

/-- The walk of an exported field that does not hold a record and whose
specification fails to parse: the parse error, bare, and nothing else. -/
theorem validateStruct_badSpec (range : MapRange) (name spec : String) (v : Value)
    (rules : List validationRule) (err : error)
    (hp : parseValidationRules spec = some (rules, some err))
    (hv : ∀ fs, v ≠ Value.struct fs) :
    validateStruct range [StructField.mk name (some spec) true v]
      = some [ValidationError.mk (some err)] := by
  rw [validateStruct_singleton]
  cases v with
  | struct fs => exact absurd rfl (hv fs)
  | int n => simp [validateStruct.body, validateStruct.applyRules, hp, addValidationError]
  | str s => simp [validateStruct.body, validateStruct.applyRules, hp, addValidationError]
  | slice es => simp [validateStruct.body, validateStruct.applyRules, hp, addValidationError]
  | other k sh => simp [validateStruct.body, validateStruct.applyRules, hp, addValidationError]
  | intFmt n sh => simp [validateStruct.body, validateStruct.applyRules, hp, addValidationError]
  | strFmt s sh => simp [validateStruct.body, validateStruct.applyRules, hp, addValidationError]

theorem validateStruct_badSpecField (range : MapRange) (f : StructField)
    (h : badSpecField f = true) :
    validateStruct range [f] = some [ValidationError.mk (some .ErrInvalidValidatorSyntax)]
      ∧ failingSingleRuleField range f = false := by
  rcases f with ⟨name, _ | spec, _ | _, v⟩
  · simp [badSpecField] at h
  · simp [badSpecField] at h
  · simp [badSpecField] at h
  · cases v with
    | struct fs => simp [badSpecField] at h
    | int n =>
      simp only [badSpecField, decide_eq_true_eq] at h
      exact ⟨validateStruct_badSpec range name spec _ _ _ h (fun _ hh => Value.noConfusion hh),
        by simp [failingSingleRuleField, h]⟩
    | str s =>
      simp only [badSpecField, decide_eq_true_eq] at h
      exact ⟨validateStruct_badSpec range name spec _ _ _ h (fun _ hh => Value.noConfusion hh),
        by simp [failingSingleRuleField, h]⟩
    | slice es =>
      simp only [badSpecField, decide_eq_true_eq] at h
      exact ⟨validateStruct_badSpec range name spec _ _ _ h (fun _ hh => Value.noConfusion hh),
        by simp [failingSingleRuleField]⟩
    | other k sh =>
      simp only [badSpecField, decide_eq_true_eq] at h
      exact ⟨validateStruct_badSpec range name spec _ _ _ h (fun _ hh => Value.noConfusion hh),
        by simp [failingSingleRuleField]⟩
    | intFmt n sh =>
      simp only [badSpecField, decide_eq_true_eq] at h
      exact ⟨validateStruct_badSpec range name spec _ _ _ h (fun _ hh => Value.noConfusion hh),
        by simp [failingSingleRuleField, h]⟩
    | strFmt s sh =>
      simp only [badSpecField, decide_eq_true_eq] at h
      exact ⟨validateStruct_badSpec range name spec _ _ _ h (fun _ hh => Value.noConfusion hh),
        by simp [failingSingleRuleField, h]⟩

theorem validateStruct_failingSingleRuleField (range : MapRange) (f : StructField)
    (h : failingSingleRuleField range f = true) :
    (∃ e, validateStruct range [f] = some [e]) ∧ badSpecField f = false := by
  have key : ∀ (name spec : String) (v : Value),
      ((∃ n, v = Value.int n) ∨ (∃ s, v = Value.str s)
        ∨ (∃ n shown, v = Value.intFmt n shown) ∨ (∃ s shown, v = Value.strFmt s shown)) →
      (match parseValidationRules spec with
        | some ([rule], none) => (rule.validate range v).Err.isSome
        | _ => false) = true →
      (∃ e, validateStruct range [StructField.mk name (some spec) true v] = some [e])
        ∧ parseValidationRules spec ≠ some ([], some .ErrInvalidValidatorSyntax) := by
    intro name spec v hv hm
    split at hm
    · rename_i rule hp
      obtain ⟨err, herr⟩ := Option.isSome_iff_exists.mp hm
      refine ⟨⟨ValidationError.mk (some (error.Errorf
        ("field: " ++ name ++ ", value: " ++ v.show ++ ", error: " ++ err.Error))), ?_⟩,
        by rw [hp]; simp⟩
      rw [validateStruct_singleton]
      rcases hv with ⟨n, rfl⟩ | ⟨s, rfl⟩ | ⟨n, sh, rfl⟩ | ⟨s, sh, rfl⟩ <;>
        simp [validateStruct.body, validateStruct.applyRules, hp, validateField_eq,
          ruleViolations, fieldViolation, herr]
    · exact absurd hm (by simp)
  rcases f with ⟨name, _ | spec, _ | _, v⟩
  · simp [failingSingleRuleField] at h
  · simp [failingSingleRuleField] at h
  · simp [failingSingleRuleField] at h
  · cases v with
    | struct fs => simp [failingSingleRuleField] at h
    | slice es => simp [failingSingleRuleField] at h
    | other k sh => simp [failingSingleRuleField] at h
    | int n =>
      simp only [failingSingleRuleField] at h
      obtain ⟨h1, h2⟩ := key name spec (Value.int n) (Or.inl ⟨n, rfl⟩) h
      exact ⟨h1, by simp [badSpecField, h2]⟩
    | str s =>
      simp only [failingSingleRuleField] at h
      obtain ⟨h1, h2⟩ := key name spec (Value.str s) (Or.inr (Or.inl ⟨s, rfl⟩)) h
      exact ⟨h1, by simp [badSpecField, h2]⟩
    | intFmt n sh =>
      simp only [failingSingleRuleField] at h
      obtain ⟨h1, h2⟩ := key name spec (Value.intFmt n sh)
        (Or.inr (Or.inr (Or.inl ⟨n, sh, rfl⟩))) h
      exact ⟨h1, by simp [badSpecField, h2]⟩
    | strFmt s sh =>
      simp only [failingSingleRuleField] at h
      obtain ⟨h1, h2⟩ := key name spec (Value.strFmt s sh)
        (Or.inr (Or.inr (Or.inr ⟨s, sh, rfl⟩))) h
      exact ⟨h1, by simp [badSpecField, h2]⟩

/-- A record made of fields whose specification fails to parse (none holding a
record) and of fields that fail their single rule has one violation per field. -/
theorem validateStruct_count (range : MapRange) (fs : List StructField)
    (h : ∀ f ∈ fs, badSpecField f = true ∨ failingSingleRuleField range f = true) :
    ∃ errs, validateStruct range fs = some errs
      ∧ errs.length = fs.countP badSpecField + fs.countP (failingSingleRuleField range) := by
  induction fs with
  | nil => exact ⟨[], rfl, rfl⟩
  | cons f fs ih =>
    obtain ⟨rest, hrest, hlen⟩ := ih (fun x hx => h x (List.mem_cons_of_mem _ hx))
    have happ := validateStruct_append range [f] fs
    rw [List.singleton_append] at happ
    rcases h f (List.mem_cons_self _ _) with hb | hq
    · obtain ⟨h1, h2⟩ := validateStruct_badSpecField range f hb
      refine ⟨ValidationError.mk (some .ErrInvalidValidatorSyntax) :: rest, ?_, ?_⟩
      · rw [happ, h1, hrest]; rfl
      · simp only [List.length_cons, hlen, List.countP_cons, hb, h2, if_true]
        simp only [Bool.false_eq_true, if_false]
        omega
    · obtain ⟨⟨e, h1⟩, h2⟩ := validateStruct_failingSingleRuleField range f hq
      refine ⟨e :: rest, ?_, ?_⟩
      · rw [happ, h1, hrest]; rfl
      · simp only [List.length_cons, hlen, List.countP_cons, hq, h2, if_true]
        simp only [Bool.false_eq_true, if_false]
        omega

theorem Error_loop_eq (v : ValidationErrors) (messages : List String)
    (h : ∀ e ∈ v, e.Err.isSome) :
    ValidationErrors.Error.loop v messages
      = some (messages ++ v.map ValidationError.text) := by
  induction v generalizing messages with
  | nil => simp [ValidationErrors.Error.loop]
  | cons e es ih =>
    obtain ⟨err, herr⟩ := Option.isSome_iff_exists.mp (h e (List.mem_cons_self _ _))
    rw [ValidationErrors.Error.loop]
    simp only [herr]
    rw [ih _ (fun x hx => h x (List.mem_cons_of_mem _ hx))]
    simp [ValidationError.text, herr]

/-- The text of a collection none of whose entries holds the nil error: the
texts of the entries, joined by a newline. -/
theorem Error_eq (v : ValidationErrors) (h : ∀ e ∈ v, e.Err.isSome) :
    ValidationErrors.Error v = some (strings.Join (v.map ValidationError.text) "\n") := by
  unfold ValidationErrors.Error
  rw [Error_loop_eq v [] h]
  rfl

/-! ## The order of a map range -/

/-- The descending enumeration visits every key of the map once and nothing
else. -/
theorem descendingRange_valid : MapRange.Valid descendingRange := by
  intro m
  rcases m with ⟨⟨l⟩, hl⟩
  constructor
  · exact List.nodup_reverse.mpr ((List.perm_insertionSort _ l).nodup_iff.mpr hl)
  · intro k
    exact List.mem_reverse.trans (List.perm_insertionSort _ l).mem_iff


/-- The ascending enumeration visits every key of the map once and nothing
else. -/
theorem ascendingRange_valid : MapRange.Valid ascendingRange := by
  rintro ⟨⟨l⟩, hl⟩
  constructor
  · exact (List.perm_insertionSort _ l).nodup_iff.mpr hl
  · intro k
    exact (List.perm_insertionSort _ l).mem_iff

theorem MapRange.Valid.empty {range : MapRange} (h : range.Valid) : range ∅ = [] := by
  apply List.eq_nil_iff_forall_not_mem.mpr
  intro k hk
  exact absurd ((h ∅).2 k |>.mp hk) (Finset.not_mem_empty k)

/-! ## Claims about the walker -/

/-- C1: the collection `validateStruct` returns for a record whose fields are
`fs1` followed by `fs2` is the collection of `fs1` followed by the collection
of `fs2` (and the walk panics exactly when one of the two does); hence the
collection of a record is the concatenation, in field order, of the
collections of its fields, each taken on its own as a one-field record. -/
theorem validateStruct_append_fields (range : MapRange) :
    (∀ fs1 fs2 : List StructField,
      validateStruct range (fs1 ++ fs2)
        = (validateStruct range fs1).bind (fun v1 =>
            (validateStruct range fs2).map (fun v2 => v1 ++ v2)))
    ∧ (∀ fs : List StructField,
      validateStruct range fs
        = (fs.mapM (fun f => validateStruct range [f])).map List.flatten) := by
  have happ := validateStruct_append range
  refine ⟨happ, ?_⟩
  intro fs
  induction fs with
  | nil => rfl
  | cons f fs ih =>
    have h := happ [f] fs
    rw [List.singleton_append] at h
    rw [h, ih, List.mapM_cons]
    cases validateStruct range [f] with
    | none => rfl
    | some v1 =>
      cases List.mapM (fun f => validateStruct range [f]) fs with
      | none => rfl
      | some vs => simp

/-- C2: an exported int or string field (of a type with or without formatting
methods) whose specification parses to `rules` contributes one violation per failing rule, in rule order, each with the text
`field: <name>, value: <value>, error: <rule message>`; for an int field tagged
`min:a;max:b`, with `a` and `b` in the range of `int`, these are the
`shouldn't be less than a` violation if `n < a`, then the
`shouldn't be great than b` violation if `n > b`. -/
theorem scalar_field_violations (range : MapRange) (name spec : String) (v : Value)
    (rules : List validationRule)
    (hv : (∃ n, v = Value.int n) ∨ (∃ s, v = Value.str s)
      ∨ (∃ n shown, v = Value.intFmt n shown) ∨ (∃ s shown, v = Value.strFmt s shown))
    (hp : parseValidationRules spec = some (rules, none)) :
    validateStruct range [StructField.mk name (some spec) true v]
        = some (rules.filterMap (fun rule =>
            (rule.validate range v).Err.map (fun err =>
              ValidationError.mk (some (error.Errorf
                ("field: " ++ name ++ ", value: " ++ v.show ++ ", error: " ++ err.Error))))))
    ∧ (∀ a b n : Int, -(2 : Int) ^ 63 ≤ a → a < (2 : Int) ^ 63 →
        -(2 : Int) ^ 63 ≤ b → b < (2 : Int) ^ 63 →
        validateStruct range [StructField.mk name
            (some ("min:" ++ toString a ++ ";max:" ++ toString b)) true (Value.int n)]
          = some ((if n < a then [ValidationError.mk (some (error.Errorf
                ("field: " ++ name ++ ", value: " ++ toString n
                  ++ ", error: " ++ ("shouldn't be less than " ++ toString a))))] else [])
              ++ (if n > b then [ValidationError.mk (some (error.Errorf
                ("field: " ++ name ++ ", value: " ++ toString n
                  ++ ", error: " ++ ("shouldn't be great than " ++ toString b))))] else []))) := by
  have hgen : ∀ (spec : String) (v : Value) (rules : List validationRule),
      ((∃ n, v = Value.int n) ∨ (∃ s, v = Value.str s)
        ∨ (∃ n shown, v = Value.intFmt n shown) ∨ (∃ s shown, v = Value.strFmt s shown)) →
      parseValidationRules spec = some (rules, none) →
      validateStruct range [StructField.mk name (some spec) true v]
        = some (ruleViolations range rules name v) := by
    intro spec v rules hv hp
    rw [validateStruct_singleton]
    rcases hv with ⟨n, rfl⟩ | ⟨s, rfl⟩ | ⟨n, sh, rfl⟩ | ⟨s, sh, rfl⟩ <;>
      simp [validateStruct.body, validateStruct.applyRules, hp, validateField_eq]
  refine ⟨hgen spec v rules hv hp, ?_⟩
  intro a b n ha1 ha2 hb1 hb2
  rw [hgen _ (Value.int n) _ (Or.inl ⟨n, rfl⟩) (parse_min_max a b ha1 ha2 hb1 hb2)]
  by_cases h1 : n < a <;> by_cases h2 : n > b <;>
    simp [ruleViolations, fieldViolation, validationRule.validate, validateMin.validate,
      validateMax.validate, h1, h2, Value.show, Value.showAt, error.Error]

/-- C2, at the field `A int` tagged `min:2;max:4` with `A = 5`: the collection
is the single line `field: A, value: 5, error: shouldn't be great than 4`. -/
theorem scalar_field_violations_witness :
    parseValidationRules "min:2;max:4" = some ([.min ⟨2⟩, .max ⟨4⟩], none)
    ∧ validateStruct ascendingRange [StructField.mk "A" (some "min:2;max:4") true (Value.int 5)]
        = some [ValidationError.mk (some (error.Errorf
            "field: A, value: 5, error: shouldn't be great than 4"))] :=
  ⟨by decide,
    ((scalar_field_violations ascendingRange "A" "min:2;max:4" (Value.int 5)
      [.min ⟨2⟩, .max ⟨4⟩] (Or.inl ⟨5, rfl⟩) (by decide)).2 2 4 5
        (by decide) (by decide) (by decide) (by decide)).trans (by decide)⟩

/-- C3: an exported field whose value is a sequence (of ints, of strings, or of
any other element kind) and whose specification parses to `rules` contributes, element by element and for each element rule by
rule, one violation per failing (element, rule) pair, with the name of the
field and the value of that element; with a single rule the number of
violations is the number of failing elements. -/
theorem slice_field_violations (range : MapRange) (name spec : String) (elems : List Value)
    (rules : List validationRule)
    (hp : parseValidationRules spec = some (rules, none)) :
    validateStruct range [StructField.mk name (some spec) true (Value.slice elems)]
        = some (elems.flatMap (fun element => rules.filterMap (fun rule =>
            (rule.validate range element).Err.map (fun err =>
              ValidationError.mk (some (error.Errorf
                ("field: " ++ name ++ ", value: " ++ element.show
                  ++ ", error: " ++ err.Error)))))))
    ∧ (∀ rule, rules = [rule] →
        ∃ errs, validateStruct range [StructField.mk name (some spec) true (Value.slice elems)]
            = some errs
          ∧ errs.length
            = (elems.filter (fun element => (rule.validate range element).Err.isSome)).length) := by
  have hgen : validateStruct range [StructField.mk name (some spec) true (Value.slice elems)]
      = some (elems.flatMap (fun element => ruleViolations range rules name element)) := by
    rw [validateStruct_singleton]
    simp only [validateStruct.body, validateStruct.applyRules, hp, foldl_validateField_eq,
      List.nil_append]
  refine ⟨hgen, ?_⟩
  intro rule hr
  subst hr
  refine ⟨_, hgen, ?_⟩
  clear hgen hp
  induction elems with
  | nil => rfl
  | cons e es ih =>
    rw [List.flatMap_cons, List.length_append, ih, List.filter_cons]
    cases h : (validationRule.validate range rule e).Err <;>
      simp [ruleViolations, fieldViolation, h, Nat.add_comm]

/-- C3, at the field `Strings []string` tagged `max:2` with the five elements
`abcd`, `abc`, `ab`, `a` and the empty string: exactly the violation of `abcd`,
then the violation of `abc`. -/
theorem slice_field_violations_witness :
    parseValidationRules "max:2" = some ([.max ⟨2⟩], none)
    ∧ validateStruct ascendingRange [StructField.mk "Strings" (some "max:2") true
        (Value.slice [Value.str "abcd", Value.str "abc", Value.str "ab", Value.str "a",
          Value.str ""])]
        = some [ValidationError.mk (some (error.Errorf
            "field: Strings, value: abcd, error: shouldn't be longer than 2")),
          ValidationError.mk (some (error.Errorf
            "field: Strings, value: abc, error: shouldn't be longer than 2"))] :=
  ⟨by decide,
    (slice_field_violations ascendingRange "Strings" "max:2" _ [.max ⟨2⟩] (by decide)).1.trans
      (by decide)⟩

/-- C4: for an exported annotated field `name` whose value is the nested record
`fields`, with `inner` the collection of the walk of `fields`: the outer
collection is every violation of `inner`, once and in the inner order, with
the text `field: <name>, value: <rendered record>, error: ` ahead of its own
text, followed by what the rules of the field itself produce (one violation
per failing rule, or the parse error). A violation of a record held at nesting
depth `path.length` is reported with one such prefix per level ahead of its
own text. -/
theorem nested_field_violations (range : MapRange) (name spec : String)
    (fields : List StructField) (inner : ValidationErrors)
    (hin : validateStruct range fields = some inner) :
    (∀ rules, parseValidationRules spec = some (rules, none) →
      validateStruct range [StructField.mk name (some spec) true (Value.struct fields)]
        = some (inner.map (fun e => ValidationError.mk (some (error.Errorf
              ("field: " ++ name ++ ", value: " ++ (Value.struct fields).show
                ++ ", error: " ++ e.text))))
            ++ rules.filterMap (fun rule =>
              (rule.validate range (Value.struct fields)).Err.map (fun err =>
                ValidationError.mk (some (error.Errorf
                  ("field: " ++ name ++ ", value: " ++ (Value.struct fields).show
                    ++ ", error: " ++ err.Error)))))))
    ∧ (∀ rules err, parseValidationRules spec = some (rules, some err) →
      validateStruct range [StructField.mk name (some spec) true (Value.struct fields)]
        = some (inner.map (fun e => ValidationError.mk (some (error.Errorf
              ("field: " ++ name ++ ", value: " ++ (Value.struct fields).show
                ++ ", error: " ++ e.text))))
            ++ [ValidationError.mk (some err)]))
    ∧ (∀ (path : List Level) (out : ValidationErrors),
      validateStruct range (nestRecord path fields) = some out →
        ∃ before after, out = before ++ inner.map (wrapPath path fields) ++ after)
    ∧ (∀ (path : List Level) (e : ValidationError),
        (pathPrefixes path fields).length = path.length
        ∧ (wrapPath path fields e).text
          = (pathPrefixes path fields).foldr (fun p t => p ++ t) e.text) := by
  refine ⟨?_, ?_, ?_, ?_⟩
  · intro rules hp
    rw [validateStruct_nested, hin]
    simp only [Option.some_bind, validateStruct.applyRules, hp, validateField_eq,
      List.nil_append, Option.map_some']
    rfl
  · intro rules err hp
    rw [validateStruct_nested, hin]
    simp only [Option.some_bind, validateStruct.applyRules, hp, addValidationError,
      List.nil_append, Option.map_some']
    rfl
  · intro path out hout
    obtain ⟨errs, before, after, herrs, hout2⟩ := nestRecord_violations range path fields out hout
    rw [hin] at herrs
    cases herrs
    exact ⟨before, after, hout2⟩
  · intro path e
    refine ⟨?_, wrapPath_text path fields e⟩
    induction path with
    | nil => rfl
    | cons l path ih => simp [pathPrefixes, ih]

/-- C4, at the record of the test `invalid struct with invalid nested struct`:
the field `NestedStruct`, annotated with the empty specification, holds the
record `MaxA = 6` (`max:4`), `LenB = abcdef` (`len:3`); the two violations of
the nested record are reported once each, in order, behind
`field: NestedStruct, value: {6 abcdef}, error: `. -/
theorem nested_field_violations_witness :
    validateStruct ascendingRange
        [StructField.mk "MaxA" (some "max:4") true (Value.int 6),
          StructField.mk "LenB" (some "len:3") true (Value.str "abcdef")]
      = some [ValidationError.mk (some (error.Errorf
            "field: MaxA, value: 6, error: shouldn't be great than 4")),
          ValidationError.mk (some (error.Errorf
            "field: LenB, value: abcdef, error: should has fixed length 3"))]
    ∧ validateStruct ascendingRange
        [StructField.mk "NestedStruct" (some "") true (Value.struct
          [StructField.mk "MaxA" (some "max:4") true (Value.int 6),
            StructField.mk "LenB" (some "len:3") true (Value.str "abcdef")])]
      = some [ValidationError.mk (some (error.Errorf
            ("field: NestedStruct, value: \x7b6 abcdef\x7d, error: "
              ++ "field: MaxA, value: 6, error: shouldn't be great than 4"))),
          ValidationError.mk (some (error.Errorf
            ("field: NestedStruct, value: \x7b6 abcdef\x7d, error: "
              ++ "field: LenB, value: abcdef, error: should has fixed length 3")))] :=
  ⟨by decide,
    ((nested_field_violations ascendingRange "NestedStruct" ""
      [StructField.mk "MaxA" (some "max:4") true (Value.int 6),
        StructField.mk "LenB" (some "len:3") true (Value.str "abcdef")]
      [ValidationError.mk (some (error.Errorf
          "field: MaxA, value: 6, error: shouldn't be great than 4")),
        ValidationError.mk (some (error.Errorf
          "field: LenB, value: abcdef, error: should has fixed length 3"))]
      (by decide)).1 [] (by decide)).trans (by decide)⟩

/-! ## Claims about the rule parser -/

/-- C5: for a specification made of clauses `name:argument` whose names and
arguments hold neither `:` nor `;`, if some clause named `len`, `min` or `max`
has an argument that is not a base-10 signed integer, `parseValidationRules`
returns `ErrInvalidValidatorSyntax` with the nil rule list, whatever the other
clauses are. -/
theorem parse_invalid_bound (cs : List (String × String))
    (hform : ∀ c ∈ cs, ':' ∉ c.1.data ∧ ';' ∉ c.1.data ∧ ':' ∉ c.2.data ∧ ';' ∉ c.2.data)
    (hbad : ∃ c ∈ cs, (c.1 = "len" ∨ c.1 = "min" ∨ c.1 = "max") ∧ isBase10Integer c.2 = false) :
    parseValidationRules (specOfClauses cs) = some ([], some .ErrInvalidValidatorSyntax) := by
  have hcs : cs ≠ [] := by
    rintro rfl
    simp at hbad
  unfold parseValidationRules
  rw [Split_specOfClauses cs hcs (fun c hc => ⟨(hform c hc).2.1, (hform c hc).2.2.2⟩)]
  exact loop_invalid_bound cs [] (fun c hc => ⟨(hform c hc).1, (hform c hc).2.2.1⟩) hbad

/-- C5, at the specification `min:2;len:abcdef;in:a,b;max:4`: the argument
`abcdef` of `len` is not an integer (no more than `%12`, `5-` and the empty
string are), and the valid clauses around it do not save the call. -/
theorem parse_invalid_bound_witness :
    specOfClauses [("min", "2"), ("len", "abcdef"), ("in", "a,b"), ("max", "4")]
      = "min:2;len:abcdef;in:a,b;max:4"
    ∧ isBase10Integer "abcdef" = false
    ∧ isBase10Integer "%12" = false
    ∧ isBase10Integer "5-" = false
    ∧ isBase10Integer "" = false
    ∧ parseValidationRules "min:2;len:abcdef;in:a,b;max:4"
      = some ([], some .ErrInvalidValidatorSyntax) :=
  ⟨by decide, by decide, by decide, by decide, by decide,
    parse_invalid_bound [("min", "2"), ("len", "abcdef"), ("in", "a,b"), ("max", "4")]
      (by decide) (by decide)⟩

/-- C6 fails on the code at the specification `in`, a clause with a recognised
name and no `:`: every `len`, `min` and `max` clause of it has an integer
argument (it has none), yet the parser does not return one descriptor for the
clause, it panics on `parts[1]`; the same happens with valid clauses around. -/
theorem parse_in_without_colon :
    strings.Split "in" ';' = ["in"]
    ∧ strings.Split "in" ':' = ["in"]
    ∧ parseValidationRules "in" = none
    ∧ parseValidationRules "min:2;in;max:4" = none := by
  decide

/-- C7 (as amended): for every clause `in:<arg>` whose `<arg>` holds no `:`,
the membership set `parseValidationRules` builds is empty when `<arg>` without
its surrounding white space is empty, and otherwise is the set of the pieces
of the trimmed `<arg>` between its commas, duplicates collapsed and pieces not
trimmed one by one; this holds wherever the clause stands in a specification,
and in particular when it is the whole specification. -/
theorem in_clause_membership_set (arg : String) (h : ':' ∉ arg.data) :
    (∀ (rest : List String) (acc : List validationRule),
      parseValidationRules.loop (("in:" ++ arg) :: rest) acc
        = parseValidationRules.loop rest (acc ++ [.isIn ⟨membershipSet arg⟩]))
    ∧ (';' ∉ arg.data →
      parseValidationRules ("in:" ++ arg) = some ([.isIn ⟨membershipSet arg⟩], none)) := by
  refine ⟨fun rest acc => loop_in_clause arg rest acc h, ?_⟩
  intro h2
  have htext : "in:" ++ arg = specOfClauses [("in", arg)] := by
    apply String.ext
    simp [specOfClauses, clauseText, strings.Join, String.intercalate,
      String.intercalate.go]
  unfold parseValidationRules
  rw [htext, Split_specOfClauses [("in", arg)] (by simp) (by simp [h2])]
  have hback : clauseText ("in", arg) = "in:" ++ arg := by
    apply String.ext
    simp [clauseText]
  rw [List.map_singleton, hback, loop_in_clause arg [] [] h]
  rfl

/-- C7 (as amended), at the clause `in:a, b`: the set is `a` and ` b`, the
second piece with its leading blank. -/
theorem in_clause_membership_set_witness :
    ':' ∉ "a, b".data ∧ ';' ∉ "a, b".data
    ∧ membershipSet "a, b" = {"a", " b"}
    ∧ parseValidationRules "in:a, b" = some ([.isIn ⟨membershipSet "a, b"⟩], none) :=
  ⟨by decide, by decide, by decide,
    (in_clause_membership_set "a, b" (by decide)).2 (by decide)⟩

/-- C7 (as stated) fails at the clause `in:a:b`: the parser takes the argument
up to the second `:` only and builds the set that holds `a`, not the set that
holds `a:b`. -/
theorem in_clause_membership_set_counterexample :
    membershipSet "a:b" = {"a:b"}
    ∧ parseValidationRules "in:a:b" = some ([.isIn ⟨{"a"}⟩], none)
    ∧ parseValidationRules "in:a:b" ≠ some ([.isIn ⟨membershipSet "a:b"⟩], none) := by
  have h1 : membershipSet "a:b" = {"a:b"} := by decide
  have h2 : parseValidationRules "in:a:b" = some ([.isIn ⟨{"a"}⟩], none) := by rfl
  refine ⟨h1, h2, ?_⟩
  rw [h1, h2]
  intro h
  simp only [Option.some.injEq, Prod.mk.injEq, List.cons.injEq, validationRule.isIn.injEq,
    validateIn.mk.injEq, and_true] at h
  exact absurd h (by decide)

/-! ## Claims about the rule evaluators -/

/-- C8 (as amended): for every membership set `S`, `validateIn` passes a value
of kind int or string iff the text `fmt` prints for it under `%v` is in `S`:
the decimal text of an int and the string itself for the types without
formatting methods, the text of the `Format`, `Error` or `String` method for a
type that has one; otherwise it returns the violation `should be one of {...}`
that lists the keys of `S`. With the empty set every int and every string
value fails with the violation that cites `{}`. -/
theorem validateIn_membership (range : MapRange) (hrange : range.Valid) (S : Finset String) :
    (∀ n : Int, ((validateIn.mk S).validate range (Value.int n)).Err = none ↔ toString n ∈ S)
    ∧ (∀ s : String, ((validateIn.mk S).validate range (Value.str s)).Err = none ↔ s ∈ S)
    ∧ (∀ n : Int, toString n ∉ S →
        (validateIn.mk S).validate range (Value.int n)
          = ⟨some (.Errorf ("should be one of "
              ++ ("\x7b" ++ strings.Join (range S) ", " ++ "\x7d")))⟩)
    ∧ (∀ s : String, s ∉ S →
        (validateIn.mk S).validate range (Value.str s)
          = ⟨some (.Errorf ("should be one of "
              ++ ("\x7b" ++ strings.Join (range S) ", " ++ "\x7d")))⟩)
    ∧ (∀ k, k ∈ range S ↔ k ∈ S)
    ∧ (∀ n : Int, (validateIn.mk ∅).validate range (Value.int n)
        = ⟨some (.Errorf "should be one of \x7b\x7d")⟩)
    ∧ (∀ s : String, (validateIn.mk ∅).validate range (Value.str s)
        = ⟨some (.Errorf "should be one of \x7b\x7d")⟩)
    ∧ (∀ (n : Int) (shown : String),
        ((validateIn.mk S).validate range (Value.intFmt n shown)).Err = none ↔ shown ∈ S)
    ∧ (∀ s shown : String,
        ((validateIn.mk S).validate range (Value.strFmt s shown)).Err = none ↔ shown ∈ S)
    ∧ (∀ (n : Int) (shown : String), shown ∉ S →
        (validateIn.mk S).validate range (Value.intFmt n shown)
          = ⟨some (.Errorf ("should be one of "
              ++ ("\x7b" ++ strings.Join (range S) ", " ++ "\x7d")))⟩)
    ∧ (∀ s shown : String, shown ∉ S →
        (validateIn.mk S).validate range (Value.strFmt s shown)
          = ⟨some (.Errorf ("should be one of "
              ++ ("\x7b" ++ strings.Join (range S) ", " ++ "\x7d")))⟩)
    ∧ (∀ (n : Int) (shown : String),
        (validateIn.mk ∅).validate range (Value.intFmt n shown)
          = ⟨some (.Errorf "should be one of \x7b\x7d")⟩)
    ∧ (∀ s shown : String, (validateIn.mk ∅).validate range (Value.strFmt s shown)
        = ⟨some (.Errorf "should be one of \x7b\x7d")⟩) := by
  have hpass : ∀ v : Value, v.Kind = "int" ∨ v.Kind = "string" →
      (((validateIn.mk S).validate range v).Err = none ↔ v.show ∈ S) := by
    intro v hk
    cases v with
    | struct fs => simp [Value.Kind] at hk
    | slice es => simp [Value.Kind] at hk
    | other k sh => cases k <;> simp [Value.Kind, OtherKind.String] at hk
    | int n => by_cases h : (Value.int n).show ∈ S <;> simp [validateIn.validate, h]
    | str s => by_cases h : (Value.str s).show ∈ S <;> simp [validateIn.validate, h]
    | intFmt n sh =>
      by_cases h : (Value.intFmt n sh).show ∈ S <;> simp [validateIn.validate, h]
    | strFmt s sh =>
      by_cases h : (Value.strFmt s sh).show ∈ S <;> simp [validateIn.validate, h]
  have hfail : ∀ (T : Finset String) (v : Value), v.Kind = "int" ∨ v.Kind = "string" →
      v.show ∉ T →
      (validateIn.mk T).validate range v
        = ⟨some (.Errorf ("should be one of "
            ++ ("\x7b" ++ strings.Join (range T) ", " ++ "\x7d")))⟩ := by
    intro T v hk h
    cases v with
    | struct fs => simp [Value.Kind] at hk
    | slice es => simp [Value.Kind] at hk
    | other k sh => cases k <;> simp [Value.Kind, OtherKind.String] at hk
    | int n => simp [validateIn.validate, validateIn.showValues, h]
    | str s => simp [validateIn.validate, validateIn.showValues, h]
    | intFmt n sh => simp [validateIn.validate, validateIn.showValues, h]
    | strFmt s sh => simp [validateIn.validate, validateIn.showValues, h]
  have hempty : ∀ v : Value, v.Kind = "int" ∨ v.Kind = "string" →
      (validateIn.mk ∅).validate range v = ⟨some (.Errorf "should be one of \x7b\x7d")⟩ := by
    intro v hk
    rw [hfail ∅ v hk (Finset.not_mem_empty _), hrange.empty]
    rfl
  exact ⟨fun n => hpass (Value.int n) (Or.inl rfl), fun s => hpass (Value.str s) (Or.inr rfl),
    fun n h => hfail S (Value.int n) (Or.inl rfl) h,
    fun s h => hfail S (Value.str s) (Or.inr rfl) h,
    (hrange S).2,
    fun n => hempty (Value.int n) (Or.inl rfl), fun s => hempty (Value.str s) (Or.inr rfl),
    fun n sh => hpass (Value.intFmt n sh) (Or.inl rfl),
    fun s sh => hpass (Value.strFmt s sh) (Or.inr rfl),
    fun n sh h => hfail S (Value.intFmt n sh) (Or.inl rfl) h,
    fun s sh h => hfail S (Value.strFmt s sh) (Or.inr rfl) h,
    fun n sh => hempty (Value.intFmt n sh) (Or.inl rfl),
    fun s sh => hempty (Value.strFmt s sh) (Or.inr rfl)⟩

/-- C8 (as amended), at the specifications `in:` and `in:5,7`: the first builds
the empty set, on which the empty string fails with the violation citing `{}`;
the second builds the set of `5` and `7`, which the int 5 passes and the int 6
fails. -/
theorem validateIn_membership_witness :
    ascendingRange.Valid
    ∧ parseValidationRules "in:" = some ([.isIn ⟨∅⟩], none)
    ∧ (validateIn.mk ∅).validate ascendingRange (Value.str "")
        = ⟨some (.Errorf "should be one of \x7b\x7d")⟩
    ∧ parseValidationRules "in:5,7" = some ([.isIn ⟨{"7", "5"}⟩], none)
    ∧ ((validateIn.mk {"7", "5"}).validate ascendingRange (Value.int 5)).Err = none
    ∧ ((validateIn.mk {"7", "5"}).validate ascendingRange (Value.int 6)).Err ≠ none :=
  ⟨ascendingRange_valid, by rfl,
    (validateIn_membership ascendingRange ascendingRange_valid ∅).2.2.2.2.2.2.1 "",
    by rfl,
    ((validateIn_membership ascendingRange ascendingRange_valid {"7", "5"}).1 5).mpr (by decide),
    fun h => absurd
      (((validateIn_membership ascendingRange ascendingRange_valid {"7", "5"}).1 6).mp h)
      (by decide)⟩

/-- C8 (as stated) fails at the field `M time.Month` tagged `in:1,2` with the
value `time.January`, an int of value 1 whose type has a `String` method: the
decimal text `1` is in the set, yet the key looked up is the text `January`
that `fmt` prints, and the value fails. -/
theorem validateIn_membership_counterexample :
    parseValidationRules "in:1,2" = some ([.isIn ⟨{"2", "1"}⟩], none)
    ∧ toString (1 : Int) ∈ ({"2", "1"} : Finset String)
    ∧ (validateIn.mk {"2", "1"}).validate ascendingRange (Value.intFmt 1 "January")
        = ⟨some (.Errorf "should be one of \x7b1, 2\x7d")⟩
    ∧ validateStruct ascendingRange
        [StructField.mk "M" (some "in:1,2") true (Value.intFmt 1 "January")]
      = some [⟨some (.Errorf
          "field: M, value: January, error: should be one of \x7b1, 2\x7d")⟩] := by
  refine ⟨by rfl, by decide, by rfl, by rfl⟩

/-- C9: for every integer `n` and every string `s`, `validateLen` with bound
`n` passes `s` iff the number of code points of `s` is `n`, and otherwise
returns `should has fixed length n`; a string of three characters of several
bytes each satisfies the bound 3; for `n < 0` every string fails; applied to
an int value it returns the violation of the unsupported kind, for every `n`.
The same holds for the strings and ints of a type with a formatting method. -/
theorem validateLen_spec (n : Int) :
    (∀ s : String, ((validateLen.mk n).validate (Value.str s)).Err = none
        ↔ (s.length : Int) = n)
    ∧ (∀ s : String, (s.length : Int) ≠ n →
        (validateLen.mk n).validate (Value.str s)
          = ⟨some (.Errorf ("should has fixed length " ++ toString n))⟩)
    ∧ ("日本語".utf8ByteSize = 9
        ∧ ((validateLen.mk 3).validate (Value.str "日本語")).Err = none)
    ∧ (n < 0 → ∀ s : String, (validateLen.mk n).validate (Value.str s)
          = ⟨some (.Errorf ("should has fixed length " ++ toString n))⟩)
    ∧ (∀ v : Int, (validateLen.mk n).validate (Value.int v)
          = ⟨some (.Errorf "validation parameter 'len' isn't defined for int")⟩)
    ∧ (∀ s shown : String, ((validateLen.mk n).validate (Value.strFmt s shown)).Err = none
        ↔ (s.length : Int) = n)
    ∧ (∀ (v : Int) (shown : String), (validateLen.mk n).validate (Value.intFmt v shown)
          = ⟨some (.Errorf "validation parameter 'len' isn't defined for int")⟩) := by
  refine ⟨?_, ?_, ⟨by decide, by decide⟩, ?_, ?_, ?_, ?_⟩
  · intro s
    by_cases h : (s.length : Int) = n <;> simp [validateLen.validate, h]
  · intro s h
    simp [validateLen.validate, h]
  · intro hn s
    have h : (s.length : Int) ≠ n := by omega
    simp [validateLen.validate, h]
  · intro v
    rfl
  · intro s shown
    by_cases h : (s.length : Int) = n <;> simp [validateLen.validate, h]
  · intro v shown
    rfl

/-- C10: for every integer bound `n`, `validateMin` fails an int value `v` iff
`v < n` and a string iff its number of code points is below `n`; `validateMax`
fails an int value `v` iff `v > n` and a string iff its number of code points
is above `n`; the value `n` itself, and a string of `n` code points, pass
both; `min` with `n ≤ 0` passes every string and `max` with `n < 0` fails
every string. The comparisons are the same for the ints and strings of a type
with a formatting method. -/
theorem validateMin_validateMax_spec (n : Int) :
    (∀ v : Int, ((validateMin.mk n).validate (Value.int v)).Err ≠ none ↔ v < n)
    ∧ (∀ s : String, ((validateMin.mk n).validate (Value.str s)).Err ≠ none
        ↔ (s.length : Int) < n)
    ∧ (∀ v : Int, ((validateMax.mk n).validate (Value.int v)).Err ≠ none ↔ v > n)
    ∧ (∀ s : String, ((validateMax.mk n).validate (Value.str s)).Err ≠ none
        ↔ (s.length : Int) > n)
    ∧ (((validateMin.mk n).validate (Value.int n)).Err = none
        ∧ ((validateMax.mk n).validate (Value.int n)).Err = none)
    ∧ (∀ s : String, (s.length : Int) = n →
        ((validateMin.mk n).validate (Value.str s)).Err = none
        ∧ ((validateMax.mk n).validate (Value.str s)).Err = none)
    ∧ (n ≤ 0 → ∀ s : String, ((validateMin.mk n).validate (Value.str s)).Err = none)
    ∧ (n < 0 → ∀ s : String, ((validateMax.mk n).validate (Value.str s)).Err ≠ none)
    ∧ (∀ (v : Int) (shown : String),
        ((validateMin.mk n).validate (Value.intFmt v shown)).Err ≠ none ↔ v < n)
    ∧ (∀ s shown : String, ((validateMin.mk n).validate (Value.strFmt s shown)).Err ≠ none
        ↔ (s.length : Int) < n)
    ∧ (∀ (v : Int) (shown : String),
        ((validateMax.mk n).validate (Value.intFmt v shown)).Err ≠ none ↔ v > n)
    ∧ (∀ s shown : String, ((validateMax.mk n).validate (Value.strFmt s shown)).Err ≠ none
        ↔ (s.length : Int) > n) := by
  refine ⟨?_, ?_, ?_, ?_, ?_, ?_, ?_, ?_, ?_, ?_, ?_, ?_⟩
  · intro v
    by_cases h : v < n <;> simp [validateMin.validate, h]
  · intro s
    by_cases h : (s.length : Int) < n <;> simp [validateMin.validate, h]
  · intro v
    by_cases h : v > n <;> simp [validateMax.validate, h]
  · intro s
    by_cases h : (s.length : Int) > n <;> simp [validateMax.validate, h]
  · simp [validateMin.validate, validateMax.validate]
  · intro s h
    simp [validateMin.validate, validateMax.validate, h]
  · intro hn s
    have h : ¬ (s.length : Int) < n := by omega
    simp [validateMin.validate, h]
  · intro hn s
    have h : (s.length : Int) > n := by omega
    simp [validateMax.validate, h]
  · intro v shown
    by_cases h : v < n <;> simp [validateMin.validate, h]
  · intro s shown
    by_cases h : (s.length : Int) < n <;> simp [validateMin.validate, h]
  · intro v shown
    by_cases h : v > n <;> simp [validateMax.validate, h]
  · intro s shown
    by_cases h : (s.length : Int) > n <;> simp [validateMax.validate, h]

/-! ## Claims about unsupported kinds, annotations and visibility -/

/-- C11: each of the four rules, applied to a value of a kind it does not
support (`len` on anything but a string; `min`, `max` and `in` on anything but
an int or a string, with or without formatting methods), returns its `isn't defined for <kind>` violation, never a
pass; and the rules after it still run: an exported field that holds neither a
record nor a sequence, of a kind none of the `k` rules of its specification
supports, contributes exactly `k` violations, one per rule, in rule order. -/
theorem unsupported_kind_violations (range : MapRange) (name spec : String) (v : Value)
    (rules : List validationRule)
    (hv : (∀ fs, v ≠ Value.struct fs) ∧ (∀ es, v ≠ Value.slice es))
    (hp : parseValidationRules spec = some (rules, none))
    (hs : ∀ r ∈ rules, r.supports v = false) :
    (∀ (o : validateLen) (w : Value), (∀ s, w ≠ Value.str s) →
        (∀ s shown, w ≠ Value.strFmt s shown) →
        o.validate w
          = ⟨some (.Errorf ("validation parameter 'len' isn't defined for " ++ w.Kind))⟩)
    ∧ (∀ (o : validateMin) (w : Value), (∀ n, w ≠ Value.int n) → (∀ s, w ≠ Value.str s) →
        (∀ n shown, w ≠ Value.intFmt n shown) → (∀ s shown, w ≠ Value.strFmt s shown) →
        o.validate w
          = ⟨some (.Errorf ("validation parameter 'min' isn't defined for " ++ w.Kind))⟩)
    ∧ (∀ (o : validateMax) (w : Value), (∀ n, w ≠ Value.int n) → (∀ s, w ≠ Value.str s) →
        (∀ n shown, w ≠ Value.intFmt n shown) → (∀ s shown, w ≠ Value.strFmt s shown) →
        o.validate w
          = ⟨some (.Errorf ("validation parameter 'max'' isn't defined for " ++ w.Kind))⟩)
    ∧ (∀ (o : validateIn) (w : Value), (∀ n, w ≠ Value.int n) → (∀ s, w ≠ Value.str s) →
        (∀ n shown, w ≠ Value.intFmt n shown) → (∀ s shown, w ≠ Value.strFmt s shown) →
        o.validate range w
          = ⟨some (.Errorf ("validation parameter 'in' isn't defined for " ++ w.Kind))⟩)
    ∧ (∀ (k : OtherKind) (shown : String) (r : validationRule),
        r.supports (Value.other k shown) = false)
    ∧ validateStruct range [StructField.mk name (some spec) true v]
        = some (rules.map (fun rule => ValidationError.mk (some (error.Errorf
            ("field: " ++ name ++ ", value: " ++ v.show ++ ", error: "
              ++ (rule.undefinedFor ++ v.Kind))))))
    ∧ (∃ errs, validateStruct range [StructField.mk name (some spec) true v] = some errs
        ∧ errs.length = rules.length) := by
  have hwalk : validateStruct range [StructField.mk name (some spec) true v]
      = some (rules.map (unsupportedViolation name v)) := by
    rw [validateStruct_singleton]
    cases v with
    | struct fs => exact absurd rfl (hv.1 fs)
    | slice es => exact absurd rfl (hv.2 es)
    | int n =>
      simp only [validateStruct.body, validateStruct.applyRules, hp, validateField_eq,
        List.nil_append, ruleViolations_unsupported range rules name _ hs]
    | str s =>
      simp only [validateStruct.body, validateStruct.applyRules, hp, validateField_eq,
        List.nil_append, ruleViolations_unsupported range rules name _ hs]
    | other k sh =>
      simp only [validateStruct.body, validateStruct.applyRules, hp, validateField_eq,
        List.nil_append, ruleViolations_unsupported range rules name _ hs]
    | intFmt n sh =>
      simp only [validateStruct.body, validateStruct.applyRules, hp, validateField_eq,
        List.nil_append, ruleViolations_unsupported range rules name _ hs]
    | strFmt s sh =>
      simp only [validateStruct.body, validateStruct.applyRules, hp, validateField_eq,
        List.nil_append, ruleViolations_unsupported range rules name _ hs]
  refine ⟨?_, ?_, ?_, ?_, ?_, hwalk, ⟨_, hwalk, by simp⟩⟩
  · intro o w hw hwf
    cases w with
    | str s => exact absurd rfl (hw s)
    | strFmt s sh => exact absurd rfl (hwf s sh)
    | _ => rfl
  · intro o w hn hw hnf hwf
    cases w with
    | int n => exact absurd rfl (hn n)
    | str s => exact absurd rfl (hw s)
    | intFmt n sh => exact absurd rfl (hnf n sh)
    | strFmt s sh => exact absurd rfl (hwf s sh)
    | _ => rfl
  · intro o w hn hw hnf hwf
    cases w with
    | int n => exact absurd rfl (hn n)
    | str s => exact absurd rfl (hw s)
    | intFmt n sh => exact absurd rfl (hnf n sh)
    | strFmt s sh => exact absurd rfl (hwf s sh)
    | _ => rfl
  · intro o w hn hw hnf hwf
    cases w with
    | int n => exact absurd rfl (hn n)
    | str s => exact absurd rfl (hw s)
    | intFmt n sh => exact absurd rfl (hnf n sh)
    | strFmt s sh => exact absurd rfl (hwf s sh)
    | _ => rfl
  · intro k shown r
    cases r <;> rfl

/-- C11, at the field `Flag bool` tagged `len:3;min:2;max:4;in:a` with the
value `true`: four violations, one per rule, in rule order. -/
theorem unsupported_kind_violations_witness :
    parseValidationRules "len:3;min:2;max:4;in:a"
      = some ([.len ⟨3⟩, .min ⟨2⟩, .max ⟨4⟩, .isIn ⟨{"a"}⟩], none)
    ∧ validateStruct ascendingRange
        [StructField.mk "Flag" (some "len:3;min:2;max:4;in:a") true
          (Value.other OtherKind.Bool "true")]
      = some [
          ⟨some (.Errorf
            "field: Flag, value: true, error: validation parameter 'len' isn't defined for bool")⟩,
          ⟨some (.Errorf
            "field: Flag, value: true, error: validation parameter 'min' isn't defined for bool")⟩,
          ⟨some (.Errorf
            "field: Flag, value: true, error: validation parameter 'max'' isn't defined for bool")⟩,
          ⟨some (.Errorf
            "field: Flag, value: true, error: validation parameter 'in' isn't defined for bool")⟩] :=
  ⟨by rfl,
    (unsupported_kind_violations ascendingRange "Flag" "len:3;min:2;max:4;in:a"
      (Value.other OtherKind.Bool "true") [.len ⟨3⟩, .min ⟨2⟩, .max ⟨4⟩, .isIn ⟨{"a"}⟩]
      ⟨fun _ h => Value.noConfusion h, fun _ h => Value.noConfusion h⟩ (by rfl)
      (by intro r _; cases r <;> rfl)).2.2.2.2.2.1.trans (by decide)⟩

/-- C12: a record none of whose own fields carries a `validate` annotation
validates with the empty collection, and `Validate` returns no error, whatever
its fields hold. -/
theorem untagged_record_valid (range : MapRange) (fs : List StructField)
    (h : ∀ f ∈ fs, f.validate = none) :
    validateStruct range fs = some []
    ∧ Validate range (Value.struct fs) = some ValidateResult.nil := by
  have hwalk : validateStruct range fs = some [] := by
    induction fs with
    | nil => rfl
    | cons f fs ih =>
      have hf := h f (List.mem_cons_self _ _)
      rcases f with ⟨name, tag, exported, v⟩
      simp only [StructField.validate] at hf
      subst hf
      rw [validateStruct_untagged_cons]
      exact ih (fun x hx => h x (List.mem_cons_of_mem _ hx))
  refine ⟨hwalk, ?_⟩
  simp [Validate, hwalk]

/-- C12, at a record with an un-annotated nested record whose sub-field
`MaxA = 6` violates its `max:4`, an un-annotated unexported field and an
un-annotated int: nothing is reported, although the nested record on its own
has a violation. -/
theorem untagged_record_valid_witness :
    validateStruct ascendingRange [StructField.mk "MaxA" (some "max:4") true (Value.int 6)]
      = some [⟨some (.Errorf "field: MaxA, value: 6, error: shouldn't be great than 4")⟩]
    ∧ validateStruct ascendingRange
        [StructField.mk "NestedStruct" none true
            (Value.struct [StructField.mk "MaxA" (some "max:4") true (Value.int 6)]),
          StructField.mk "foo" none false (Value.str "abc"),
          StructField.mk "Count" none true (Value.int 7)]
      = some []
    ∧ Validate ascendingRange (Value.struct
        [StructField.mk "NestedStruct" none true
            (Value.struct [StructField.mk "MaxA" (some "max:4") true (Value.int 6)]),
          StructField.mk "foo" none false (Value.str "abc"),
          StructField.mk "Count" none true (Value.int 7)])
      = some ValidateResult.nil :=
  ⟨by decide,
    untagged_record_valid ascendingRange
      [StructField.mk "NestedStruct" none true
          (Value.struct [StructField.mk "MaxA" (some "max:4") true (Value.int 6)]),
        StructField.mk "foo" none false (Value.str "abc"),
        StructField.mk "Count" none true (Value.int 7)]
      (by decide)⟩

/-- C13 (as amended): the walker walks a nested record only when the field of
the parent that holds it carries a `validate` annotation, the empty one
included, and is exported: then the violations of the nested record appear,
wrapped, in the outer collection, ahead of what the annotation itself
produces; a field without annotation contributes nothing and its nested
record is not walked, even one whose walk has violations or would panic. -/
theorem nested_record_walked_when_annotated (range : MapRange) (name spec : String)
    (fields : List StructField) (inner : ValidationErrors)
    (hin : validateStruct range fields = some inner)
    (hp : parseValidationRules spec ≠ none) :
    (∃ own, validateStruct range [StructField.mk name (some spec) true (Value.struct fields)]
        = some (inner.map (fun e => ValidationError.mk (some (error.Errorf
              ("field: " ++ name ++ ", value: " ++ (Value.struct fields).show
                ++ ", error: " ++ e.text)))) ++ own))
    ∧ (∀ (exported : Bool) (anyFields : List StructField),
        validateStruct range [StructField.mk name none exported (Value.struct anyFields)]
          = some []) := by
  constructor
  · rw [validateStruct_nested, hin]
    cases ha : validateStruct.applyRules range name spec (Value.struct fields) [] with
    | none =>
      unfold validateStruct.applyRules at ha
      rcases hr : parseValidationRules spec with _ | ⟨rules, _ | err⟩
      · exact absurd hr hp
      · simp [hr] at ha
      · simp [hr] at ha
    | some own => exact ⟨own, rfl⟩
  · intro exported anyFields
    rw [validateStruct_untagged_cons]
    rfl

/-- C13 (as amended), at the record of the test `invalid struct with invalid
nested struct`, whose field `NestedStruct` carries the empty annotation: the
violation of `MaxA = 6` under `max:4` appears wrapped in the outer collection. -/
theorem nested_record_walked_when_annotated_witness :
    validateStruct ascendingRange [StructField.mk "MaxA" (some "max:4") true (Value.int 6)]
      = some [⟨some (.Errorf "field: MaxA, value: 6, error: shouldn't be great than 4")⟩]
    ∧ parseValidationRules "" ≠ none
    ∧ (∃ own, validateStruct ascendingRange
        [StructField.mk "NestedStruct" (some "") true
          (Value.struct [StructField.mk "MaxA" (some "max:4") true (Value.int 6)])]
      = some ([⟨some (.Errorf ("field: NestedStruct, value: \x7b6\x7d, error: "
          ++ "field: MaxA, value: 6, error: shouldn't be great than 4"))⟩] ++ own))
    ∧ validateStruct ascendingRange
        [StructField.mk "NestedStruct" (some "") true
          (Value.struct [StructField.mk "MaxA" (some "max:4") true (Value.int 6)])]
      = some [⟨some (.Errorf ("field: NestedStruct, value: \x7b6\x7d, error: "
          ++ "field: MaxA, value: 6, error: shouldn't be great than 4"))⟩] :=
  ⟨by decide, by decide,
    (nested_record_walked_when_annotated ascendingRange "NestedStruct" ""
      [StructField.mk "MaxA" (some "max:4") true (Value.int 6)]
      [⟨some (.Errorf "field: MaxA, value: 6, error: shouldn't be great than 4")⟩]
      (by decide) (by decide)).1,
    by decide⟩

/-- C13 (as stated) fails at the record of the test `valid struct with invalid
nested struct`: the field `NestedStruct` has no annotation, its record has the
violation of `MaxA = 6` under `max:4` and of `LenB = abcdef` under `len:3`,
and the outer collection is empty. -/
theorem nested_record_unannotated_counterexample :
    validateStruct ascendingRange
        [StructField.mk "MaxA" (some "max:4") true (Value.int 6),
          StructField.mk "LenB" (some "len:3") true (Value.str "abcdef")]
      = some [⟨some (.Errorf "field: MaxA, value: 6, error: shouldn't be great than 4")⟩,
          ⟨some (.Errorf "field: LenB, value: abcdef, error: should has fixed length 3")⟩]
    ∧ validateStruct ascendingRange
        [StructField.mk "InInt" (some "in:20,25,30") true (Value.int 25),
          StructField.mk "NestedStruct" none true (Value.struct
            [StructField.mk "MaxA" (some "max:4") true (Value.int 6),
              StructField.mk "LenB" (some "len:3") true (Value.str "abcdef")])]
      = some [] := by
  constructor <;> rfl

/-- C14: an annotated field that is not exported contributes exactly the
error `ErrValidateForUnexportedFields`, bare, whatever its specification and
its value are (a specification on which the parser would fail or panic, a
nested record with violations), and the fields after it are processed. -/
theorem unexported_field_violation (range : MapRange) (name spec : String) (v : Value)
    (rest : List StructField) :
    validateStruct range [StructField.mk name (some spec) false v]
      = some [ValidationError.mk (some .ErrValidateForUnexportedFields)]
    ∧ (ValidationError.mk (some .ErrValidateForUnexportedFields)).text
      = "validation for unexported field is not allowed"
    ∧ validateStruct range (StructField.mk name (some spec) false v :: rest)
      = (validateStruct range rest).map (fun errs =>
          ValidationError.mk (some .ErrValidateForUnexportedFields) :: errs)
    ∧ parseValidationRules "len" = none
    ∧ validateStruct range [StructField.mk name (some "len") false
        (Value.struct [StructField.mk "MaxA" (some "max:4") true (Value.int 6)])]
      = some [ValidationError.mk (some .ErrValidateForUnexportedFields)] := by
  refine ⟨?_, rfl, validateStruct_unexported_cons range name spec v rest, by decide, ?_⟩
  · rw [validateStruct_unexported_cons]; rfl
  · rw [validateStruct_unexported_cons]; rfl

/-- C15 (as amended): an exported field whose specification fails to parse
contributes exactly one violation for the parse failure, the bare error
`invalid validator syntax`, and none of its rules is applied, to a scalar or to
the elements of a sequence; when the field holds a nested record that
violation comes after the wrapped violations of the record; the sibling
fields are processed as if the field were absent; and a record made of `n`
such fields that hold no nested record and `m` fields that fail their single
rule has `n + m` violations. -/
theorem bad_spec_field_violation (range : MapRange) (name spec : String)
    (hp : parseValidationRules spec = some ([], some .ErrInvalidValidatorSyntax)) :
    (∀ v : Value, (∀ fs, v ≠ Value.struct fs) →
      validateStruct range [StructField.mk name (some spec) true v]
        = some [ValidationError.mk (some .ErrInvalidValidatorSyntax)])
    ∧ (ValidationError.mk (some .ErrInvalidValidatorSyntax)).text = "invalid validator syntax"
    ∧ (∀ (fields : List StructField) (inner : ValidationErrors),
      validateStruct range fields = some inner →
      validateStruct range [StructField.mk name (some spec) true (Value.struct fields)]
        = some (inner.map (fun e => ValidationError.mk (some (error.Errorf
              ("field: " ++ name ++ ", value: " ++ (Value.struct fields).show
                ++ ", error: " ++ e.text))))
            ++ [ValidationError.mk (some .ErrInvalidValidatorSyntax)]))
    ∧ (∀ (v : Value) (before after : List StructField), (∀ fs, v ≠ Value.struct fs) →
      validateStruct range (before ++ StructField.mk name (some spec) true v :: after)
        = (validateStruct range before).bind (fun v1 =>
            (validateStruct range after).map (fun v2 =>
              v1 ++ ValidationError.mk (some .ErrInvalidValidatorSyntax) :: v2)))
    ∧ (∀ fs : List StructField,
      (∀ f ∈ fs, badSpecField f = true ∨ failingSingleRuleField range f = true) →
      ∃ errs, validateStruct range fs = some errs
        ∧ errs.length
          = fs.countP badSpecField + fs.countP (failingSingleRuleField range)) := by
  refine ⟨?_, rfl, ?_, ?_, validateStruct_count range⟩
  · intro v hv
    exact validateStruct_badSpec range name spec v _ _ hp hv
  · intro fields inner hin
    rw [validateStruct_nested, hin]
    simp only [Option.some_bind, validateStruct.applyRules, hp, addValidationError,
      List.nil_append, Option.map_some']
    rfl
  · intro v before after hv
    have h1 := validateStruct_append range before
      (StructField.mk name (some spec) true v :: after)
    have h2 := validateStruct_append range [StructField.mk name (some spec) true v] after
    rw [List.singleton_append] at h2
    rw [h1, h2, validateStruct_badSpec range name spec v _ _ hp hv]
    cases validateStruct range before with
    | none => rfl
    | some v1 =>
      cases validateStruct range after with
      | none => rfl
      | some v2 => rfl

/-- C15 (as amended), at the record of the test `wrong length`: the field
`BadSpec` tagged `len:%12` contributes the bare syntax error, and with the four
fields that fail their `len` rule the record has five violations. -/
theorem bad_spec_field_violation_witness :
    parseValidationRules "len:%12" = some ([], some .ErrInvalidValidatorSyntax)
    ∧ validateStruct ascendingRange [StructField.mk "BadSpec" (some "len:%12") true
        (Value.str "abc")]
      = some [ValidationError.mk (some .ErrInvalidValidatorSyntax)]
    ∧ (∃ errs, validateStruct ascendingRange
        [StructField.mk "Lower" (some "len:24") true (Value.str "abcdef"),
          StructField.mk "Higher" (some "len:5") true (Value.str "abcdef"),
          StructField.mk "Zero" (some "len:3") true (Value.str ""),
          StructField.mk "BadSpec" (some "len:%12") true (Value.str "abc"),
          StructField.mk "Negative" (some "len:-6") true (Value.str "abcd")] = some errs
        ∧ errs.length = 1 + 4) :=
  ⟨by decide,
    (bad_spec_field_violation ascendingRange "BadSpec" "len:%12" (by decide)).1
      (Value.str "abc") (fun _ h => Value.noConfusion h),
    (bad_spec_field_violation ascendingRange "BadSpec" "len:%12" (by decide)).2.2.2.2
      [StructField.mk "Lower" (some "len:24") true (Value.str "abcdef"),
        StructField.mk "Higher" (some "len:5") true (Value.str "abcdef"),
        StructField.mk "Zero" (some "len:3") true (Value.str ""),
        StructField.mk "BadSpec" (some "len:%12") true (Value.str "abc"),
        StructField.mk "Negative" (some "len:-6") true (Value.str "abcd")]
      (by decide)⟩

/-- C15 (as stated) fails at a record with the single field `N`, tagged
`len:x`, that holds the record `B = 3` under `min:5;max:1`: the specification
of `N` fails to parse and the record has no other field, so `n = 1` and
`m = 0`, yet the collection has three violations, the two wrapped violations
of `B` and then the syntax error. -/
theorem bad_spec_field_counterexample :
    parseValidationRules "len:x" = some ([], some .ErrInvalidValidatorSyntax)
    ∧ validateStruct ascendingRange
        [StructField.mk "N" (some "len:x") true
          (Value.struct [StructField.mk "B" (some "min:5;max:1") true (Value.int 3)])]
      = some [
          ⟨some (.Errorf ("field: N, value: \x7b3\x7d, error: "
            ++ "field: B, value: 3, error: shouldn't be less than 5"))⟩,
          ⟨some (.Errorf ("field: N, value: \x7b3\x7d, error: "
            ++ "field: B, value: 3, error: shouldn't be great than 1"))⟩,
          ⟨some .ErrInvalidValidatorSyntax⟩]
    ∧ ¬ (∃ errs, validateStruct ascendingRange
        [StructField.mk "N" (some "len:x") true
          (Value.struct [StructField.mk "B" (some "min:5;max:1") true (Value.int 3)])]
        = some errs ∧ errs.length = 1 + 0) := by
  refine ⟨by decide, by decide, ?_⟩
  rintro ⟨errs, h, hlen⟩
  have h3 : validateStruct ascendingRange
      [StructField.mk "N" (some "len:x") true
        (Value.struct [StructField.mk "B" (some "min:5;max:1") true (Value.int 3)])]
      = some [
          ⟨some (.Errorf ("field: N, value: \x7b3\x7d, error: "
            ++ "field: B, value: 3, error: shouldn't be less than 5"))⟩,
          ⟨some (.Errorf ("field: N, value: \x7b3\x7d, error: "
            ++ "field: B, value: 3, error: shouldn't be great than 1"))⟩,
          ⟨some .ErrInvalidValidatorSyntax⟩] := by decide
  rw [h3] at h
  cases h
  simp at hlen

/-! ## Claims about the entry point -/

/-- C16: `Validate` on an input that is not a struct (a string, a map, a
pointer, a pointer to a struct included) returns exactly `ErrNotStruct`; on a
struct it returns no error iff the collection of the walker is empty and
otherwise returns that collection unchanged, whose `Error()` text is the texts
of its violations, in discovery order, joined by single newlines. -/
theorem Validate_spec (range : MapRange) :
    (∀ v : Value, (∀ fs, v ≠ Value.struct fs) →
      Validate range v = some (ValidateResult.err .ErrNotStruct))
    ∧ (Validate range (Value.str "some string") = some (ValidateResult.err .ErrNotStruct)
      ∧ Validate range (Value.other OtherKind.Map "map[]")
          = some (ValidateResult.err .ErrNotStruct)
      ∧ Validate range (Value.other OtherKind.Pointer "&\x7b5\x7d")
          = some (ValidateResult.err .ErrNotStruct))
    ∧ (∀ fs : List StructField,
      Validate range (Value.struct fs)
        = (validateStruct range fs).map (fun errs =>
            if errs = [] then ValidateResult.nil else ValidateResult.errs errs))
    ∧ (∀ (fs : List StructField) (errs : ValidationErrors),
      validateStruct range fs = some errs →
        (Validate range (Value.struct fs) = some ValidateResult.nil ↔ errs = [])
        ∧ (errs ≠ [] → Validate range (Value.struct fs) = some (ValidateResult.errs errs))
        ∧ ValidationErrors.Error errs
            = some (strings.Join (errs.map ValidationError.text) "\n")
        ∧ (strings.Join (errs.map ValidationError.text) "\n").data
            = ['\n'].intercalate (errs.map (fun e => e.text.data))) := by
  refine ⟨?_, ⟨rfl, rfl, rfl⟩, ?_, ?_⟩
  · intro v hv
    cases v with
    | struct fs => exact absurd rfl (hv fs)
    | _ => rfl
  · intro fs
    cases hw : validateStruct range fs with
    | none => simp [Validate, hw]
    | some errs => by_cases h : errs = [] <;> simp [Validate, hw, h]
  · intro fs errs hw
    refine ⟨?_, ?_, Error_eq errs (validateStruct_isSome range fs errs hw), ?_⟩
    · by_cases h : errs = [] <;> simp [Validate, hw, h]
    · intro h
      simp [Validate, hw, h]
    · have hj := Join_data '\n' (errs.map ValidationError.text)
      rw [List.map_map] at hj
      exact hj

/-- C16, at the record of the test `invalid struct with invalid nested
struct`: `Validate` returns the collection of two violations, and its text is
the two lines joined by one newline. -/
theorem Validate_spec_example :
    Validate ascendingRange (Value.struct
        [StructField.mk "InInt" (some "in:20,25,30") true (Value.int 25),
          StructField.mk "NestedStruct" (some "") true (Value.struct
            [StructField.mk "MaxA" (some "max:4") true (Value.int 6),
              StructField.mk "LenB" (some "len:3") true (Value.str "abcdef")])])
      = some (ValidateResult.errs [
          ⟨some (.Errorf ("field: NestedStruct, value: \x7b6 abcdef\x7d, error: "
            ++ "field: MaxA, value: 6, error: shouldn't be great than 4"))⟩,
          ⟨some (.Errorf ("field: NestedStruct, value: \x7b6 abcdef\x7d, error: "
            ++ "field: LenB, value: abcdef, error: should has fixed length 3"))⟩])
    ∧ ValidationErrors.Error [
          ⟨some (.Errorf ("field: NestedStruct, value: \x7b6 abcdef\x7d, error: "
            ++ "field: MaxA, value: 6, error: shouldn't be great than 4"))⟩,
          ⟨some (.Errorf ("field: NestedStruct, value: \x7b6 abcdef\x7d, error: "
            ++ "field: LenB, value: abcdef, error: should has fixed length 3"))⟩]
      = some ("field: NestedStruct, value: \x7b6 abcdef\x7d, error: "
          ++ "field: MaxA, value: 6, error: shouldn't be great than 4" ++ "\n"
          ++ "field: NestedStruct, value: \x7b6 abcdef\x7d, error: "
          ++ "field: LenB, value: abcdef, error: should has fixed length 3") := by
  constructor <;> rfl

/-! ## Claims about clauses without or with several colons -/

/-- C17 fails on the code at the specifications `len` and `min;max:3`: the
clause has a recognised name and no `:`, `strings.Split` gives a single part
and `parts[1]` is out of range; the parser panics, and with it the walk of a
record that carries such an annotation and the call of `Validate`. -/
theorem parse_clause_without_colon_panics :
    strings.Split "len" ':' = ["len"]
    ∧ parseValidationRules "len" = none
    ∧ parseValidationRules "min;max:3" = none
    ∧ validateStruct ascendingRange [StructField.mk "A" (some "len") true (Value.str "abc")]
      = none
    ∧ Validate ascendingRange
        (Value.struct [StructField.mk "B" (some "min;max:3") true (Value.int 2)])
      = none := by
  decide

/-- C18 (as amended): the parser splits a clause at every `:`; the name is the
text before the first `:`, the argument is the text between the first and the
second `:` (all that follows the first when there is no second), and what
follows a second `:` is ignored: the clause is read as the clause
`name:argument` made of its first two parts. -/
theorem clause_split_at_every_colon (name arg : String) (extra : List String)
    (h : ∀ part ∈ name :: arg :: extra, ':' ∉ part.data) :
    strings.Split (strings.Join (name :: arg :: extra) ":") ':' = name :: arg :: extra
    ∧ (∀ (rest : List String) (acc : List validationRule),
      parseValidationRules.loop (strings.Join (name :: arg :: extra) ":" :: rest) acc
        = parseValidationRules.loop ((name ++ ":" ++ arg) :: rest) acc) :=
  ⟨(loop_extra_parts name arg extra [] [] h).1,
    fun rest acc => (loop_extra_parts name arg extra rest acc h).2⟩

/-- C18 (as amended), at the clauses `in:a:b` and `min:5:x`: the first is read
as `in:a` and builds the set that holds `a`, the second is read as `min:5` and
gives the rule `min` with bound 5. -/
theorem clause_split_at_every_colon_witness :
    (∀ part ∈ ["in", "a", "b"], ':' ∉ part.data)
    ∧ strings.Join ["in", "a", "b"] ":" = "in:a:b"
    ∧ strings.Split "in:a:b" ':' = ["in", "a", "b"]
    ∧ parseValidationRules "in:a:b" = parseValidationRules "in:a"
    ∧ parseValidationRules "in:a" = some ([.isIn ⟨{"a"}⟩], none)
    ∧ parseValidationRules "min:5:x" = parseValidationRules "min:5"
    ∧ parseValidationRules "min:5" = some ([.min ⟨5⟩], none) :=
  ⟨by decide, by decide,
    (clause_split_at_every_colon "in" "a" ["b"] (by decide)).1,
    (clause_split_at_every_colon "in" "a" ["b"] (by decide)).2 [] [],
    by rfl,
    (clause_split_at_every_colon "min" "5" ["x"] (by decide)).2 [] [],
    by decide⟩

/-- C18 (as stated) fails at the clauses `in:a:b` and `min:5:x`: the first
builds the set that holds `a`, not `a:b`, and the second does not fail with
`ErrInvalidValidatorSyntax`, it gives the rule `min` with bound 5. -/
theorem clause_split_at_first_colon_counterexample :
    parseValidationRules "in:a:b" = some ([.isIn ⟨{"a"}⟩], none)
    ∧ ({"a"} : Finset String) ≠ {"a:b"}
    ∧ strconv.Atoi "5:x" = none
    ∧ parseValidationRules "min:5:x" = some ([.min ⟨5⟩], none)
    ∧ parseValidationRules "min:5:x" ≠ some ([], some .ErrInvalidValidatorSyntax) := by
  refine ⟨by rfl, by decide, by decide, by decide, ?_⟩
  have h : parseValidationRules "min:5:x" = some ([.min ⟨5⟩], none) := by decide
  rw [h]
  simp

/-! ## Claims about the order of a membership set and about sequences of records -/

/-- C19 fails on the code at the record `Ints []int` tagged `in:25,30` with
the single element 20: `showValues` lists the keys in the order the `range`
over the map yields them, which Go leaves unspecified; under the ascending
order the text of the collection cites `{25, 30}`, as the test expects, and
under the descending order, as valid an enumeration of the same map, it cites
`{30, 25}`: two calls of `Validate` on the same record can return different
texts. -/
theorem showValues_depends_on_map_order :
    ascendingRange.Valid ∧ descendingRange.Valid
    ∧ parseValidationRules "in:25,30" = some ([.isIn ⟨{"30", "25"}⟩], none)
    ∧ (validateIn.mk {"30", "25"}).showValues ascendingRange = "\x7b25, 30\x7d"
    ∧ (validateIn.mk {"30", "25"}).showValues descendingRange = "\x7b30, 25\x7d"
    ∧ Validate ascendingRange (Value.struct
        [StructField.mk "Ints" (some "in:25,30") true (Value.slice [Value.int 20])])
      = some (ValidateResult.errs
          [⟨some (.Errorf "field: Ints, value: 20, error: should be one of \x7b25, 30\x7d")⟩])
    ∧ Validate descendingRange (Value.struct
        [StructField.mk "Ints" (some "in:25,30") true (Value.slice [Value.int 20])])
      = some (ValidateResult.errs
          [⟨some (.Errorf "field: Ints, value: 20, error: should be one of \x7b30, 25\x7d")⟩])
    ∧ ValidationErrors.Error
        [⟨some (.Errorf "field: Ints, value: 20, error: should be one of \x7b25, 30\x7d")⟩]
      ≠ ValidationErrors.Error
        [⟨some (.Errorf "field: Ints, value: 20, error: should be one of \x7b30, 25\x7d")⟩] := by
  refine ⟨ascendingRange_valid, descendingRange_valid, by rfl, by rfl, by rfl, by rfl, by rfl,
    by decide⟩

/-- C20: for an exported annotated field whose value is a sequence of records
the walker does not walk the elements: whatever their sub-fields and the
annotations of these are, the violations of the field are one
`isn't defined for struct` violation per (element, rule) pair, element by
element and rule by rule, hence none when the specification has no recognised
clause. -/
theorem slice_of_records_violations (range : MapRange) (name spec : String)
    (elems : List Value) (rules : List validationRule)
    (helems : ∀ e ∈ elems, ∃ fs, e = Value.struct fs)
    (hp : parseValidationRules spec = some (rules, none)) :
    validateStruct range [StructField.mk name (some spec) true (Value.slice elems)]
        = some (elems.flatMap (fun element => rules.map (fun rule =>
            ValidationError.mk (some (error.Errorf
              ("field: " ++ name ++ ", value: " ++ element.show ++ ", error: "
                ++ (rule.undefinedFor ++ "struct")))))))
    ∧ (rules = [] →
        validateStruct range [StructField.mk name (some spec) true (Value.slice elems)]
          = some []) := by
  have hwalk : validateStruct range [StructField.mk name (some spec) true (Value.slice elems)]
      = some (elems.flatMap (fun element => ruleViolations range rules name element)) := by
    rw [validateStruct_singleton]
    simp only [validateStruct.body, validateStruct.applyRules, hp, foldl_validateField_eq,
      List.nil_append]
  have hflat : elems.flatMap (fun element => ruleViolations range rules name element)
      = elems.flatMap (fun element => rules.map (fun rule =>
          ValidationError.mk (some (error.Errorf
            ("field: " ++ name ++ ", value: " ++ element.show ++ ", error: "
              ++ (rule.undefinedFor ++ "struct")))))) := by
    clear hwalk hp
    induction elems with
    | nil => rfl
    | cons e es ih =>
      obtain ⟨fs, rfl⟩ := helems e (List.mem_cons_self _ _)
      rw [List.flatMap_cons, List.flatMap_cons,
        ih (fun x hx => helems x (List.mem_cons_of_mem _ hx)),
        ruleViolations_unsupported range rules name (Value.struct fs)
          (by intro r _; cases r <;> rfl)]
      rfl
  refine ⟨by rw [hwalk, hflat], ?_⟩
  intro hr
  subst hr
  rw [hwalk]
  simp [ruleViolations]

/-- C20, at a field `Items` that holds two records whose sub-field `MaxA`
violates its `max:4`: with the empty annotation nothing is reported, and with
`min:1` each element gets the violation of the unsupported kind, while an
element walked on its own has a violation. -/
theorem slice_of_records_violations_witness :
    validateStruct ascendingRange [StructField.mk "MaxA" (some "max:4") true (Value.int 6)]
      = some [⟨some (.Errorf "field: MaxA, value: 6, error: shouldn't be great than 4")⟩]
    ∧ validateStruct ascendingRange [StructField.mk "Items" (some "") true (Value.slice
        [Value.struct [StructField.mk "MaxA" (some "max:4") true (Value.int 6)],
          Value.struct [StructField.mk "MaxA" (some "max:4") true (Value.int 7)]])]
      = some []
    ∧ validateStruct ascendingRange [StructField.mk "Items" (some "min:1") true (Value.slice
        [Value.struct [StructField.mk "MaxA" (some "max:4") true (Value.int 6)],
          Value.struct [StructField.mk "MaxA" (some "max:4") true (Value.int 7)]])]
      = some [
          ⟨some (.Errorf ("field: Items, value: \x7b6\x7d, error: "
            ++ "validation parameter 'min' isn't defined for struct"))⟩,
          ⟨some (.Errorf ("field: Items, value: \x7b7\x7d, error: "
            ++ "validation parameter 'min' isn't defined for struct"))⟩] :=
  ⟨by decide,
    (slice_of_records_violations ascendingRange "Items" ""
      [Value.struct [StructField.mk "MaxA" (some "max:4") true (Value.int 6)],
        Value.struct [StructField.mk "MaxA" (some "max:4") true (Value.int 7)]] []
      (by
        intro e he
        simp only [List.mem_cons, List.mem_singleton, List.not_mem_nil, or_false] at he
        rcases he with rfl | rfl <;> exact ⟨_, rfl⟩)
      (by decide)).2 rfl,
    (slice_of_records_violations ascendingRange "Items" "min:1"
      [Value.struct [StructField.mk "MaxA" (some "max:4") true (Value.int 6)],
        Value.struct [StructField.mk "MaxA" (some "max:4") true (Value.int 7)]] [.min ⟨1⟩]
      (by
        intro e he
        simp only [List.mem_cons, List.mem_singleton, List.not_mem_nil, or_false] at he
        rcases he with rfl | rfl <;> exact ⟨_, rfl⟩)
      (by decide)).1.trans (by decide)⟩

end Validator
